import Mathlib

/-!
Shallow embedding of the pallet-account ledger application (`src/app.py`).

Timestamps (`datetime`) are embedded as `Nat` — seconds in the proleptic
Gregorian calendar counted from `datetime.min` (0001-01-01 00:00:00), which
preserves the order and arithmetic of Python `datetime` values.  Database rows
are embedded as flat tables of records inside a `Store`; SQLAlchemy
relationship traversals become filters over those tables.  Quantities are
integers in the source (form input parsed with `int`, `db.Integer` columns),
so the `float(...)` coercions in the balance code are exact and are embedded
as `Int` arithmetic.  Each route handler's POST logic becomes a function
`Store → ... → Except Err Store`.
-/

/-- Calendar date (year, month, day) as entered in the date form field. -/
structure Date where
  year : Nat
  month : Nat
  day : Nat
deriving DecidableEq

/-- The current clock at the moment a request is processed: `datetime.now()`
split into its calendar date and its time of day in seconds. -/
structure Now where
  date : Date
  time : Nat
deriving DecidableEq

/-- One value per pallet category (EUP, GB, TMB1, TMB2). -/
structure Saldo4 where
  eup : Int
  gb : Int
  tmb1 : Int
  tmb2 : Int
deriving DecidableEq

def Saldo4.zero : Saldo4 := ⟨0, 0, 0, 0⟩

def Saldo4.add (a b : Saldo4) : Saldo4 :=
  ⟨a.eup + b.eup, a.gb + b.gb, a.tmb1 + b.tmb1, a.tmb2 + b.tmb2⟩

/-- Row of the `entry` table. -/
structure Entry where
  id : Nat
  belegnummer : String
  datum : Option Nat
  richtung : String
  menge_eup : Int
  menge_gb : Int
  menge_tmb1 : Int
  menge_tmb2 : Int
  kommentar : String
  konto_seq : Nat
  erfasst_von : String
  account_id : Nat
deriving DecidableEq

/-- Row of the `account` table. -/
structure Account where
  id : Nat
  partner_id : Nat
deriving DecidableEq

/-- Row of the `partner` table. -/
structure Partner where
  id : Nat
  name : String
deriving DecidableEq

/-- Row of the `month_closure` table. -/
structure MonthClosure where
  id : Nat
  partner_id : Nat
  year : Nat
  month : Nat
  saldo_eup : Int
  saldo_gb : Int
  saldo_tmb1 : Int
  saldo_tmb2 : Int
  period_end : Nat
  created_at : Nat
deriving DecidableEq

/-- The database: the four tables plus autoincrement counters. -/
structure Store where
  partners : List Partner
  accounts : List Account
  entries : List Entry
  closures : List MonthClosure
  next_partner_id : Nat
  next_account_id : Nat
  next_entry_id : Nat
  next_closure_id : Nat
deriving DecidableEq

def Store.empty : Store := ⟨[], [], [], [], 1, 1, 1, 1⟩

/-- The failure outcomes a request can surface (flashed errors / 404).
`TypeErr` models the `TypeError` Python raises when the correction lock check
compares a `None` timestamp against a closure cutoff. -/
inductive Err where
  | PartnerNotFound
  | NoAccount
  | ClosureLocked
  | InvalidQuantity
  | InvalidDirection
  | MissingReferenceNumber
  | MissingBelegnummer
  | MissingKommentar
  | OriginalEntryNotFound
  | DuplicateClosure
  | TypeErr
  | MissingName
deriving DecidableEq

/-! ## Calendar arithmetic (Python `datetime` embedded as seconds) -/

/-- Proleptic Gregorian leap-year rule used by Python `datetime`. -/
def isLeap (y : Nat) : Bool :=
  y % 4 == 0 && (!(y % 100 == 0) || y % 400 == 0)

/-- Number of days of a calendar month (months 1..12). -/
def daysInMonth (y m : Nat) : Nat :=
  if m == 2 then (if isLeap y then 29 else 28)
  else if m == 4 || m == 6 || m == 9 || m == 11 then 30
  else 31

/-- Days from the start of year `y` up to the start of month `m` of year `y`. -/
def daysBeforeMonth (y : Nat) : Nat → Nat
  | 0 => 0
  | 1 => 0
  | m + 1 => daysBeforeMonth y m + daysInMonth y m

/-- Days from 0001-01-01 up to the start of year `y` (Python `date.toordinal`
of January 1st of year `y`, minus one). -/
def daysBeforeYear (y : Nat) : Nat :=
  365 * (y - 1) + (y - 1) / 4 - (y - 1) / 100 + (y - 1) / 400

/-- A Python `datetime(y, m, d, h, mi, sec)` as seconds since `datetime.min`. -/
def toSec (y m d h mi sec : Nat) : Nat :=
  (((daysBeforeYear y + daysBeforeMonth y m + (d - 1)) * 24 + h) * 60 + mi) * 60 + sec

/-- `datetime.min` (0001-01-01 00:00:00). -/
def minDatetime : Nat := 0

/-- Midnight of a calendar date (`datetime.combine(date, time.min)` level). -/
def dateToSec (d : Date) : Nat := toSec d.year d.month d.day 0 0 0

/-- Effective timestamp of a booking: the user-entered calendar date combined
with the current time of day (`datetime.combine(user_date, current_time)`). -/
def entryDate (d : Date) (now : Now) : Nat := dateToSec d + now.time

/-- `month_range`: first instant of the month of the given date and the last
instant of that month (start of the next month minus one second). -/
def month_range (y m : Nat) : Nat × Nat :=
  let start := toSec y m 1 0 0 0
  let next_m := if m == 12 then toSec (y + 1) 1 1 0 0 0 else toSec y (m + 1) 1 0 0 0
  (start, next_m - 1)

/-- Written from the spec's words, for comparison with `month_range`: the
"final second of that calendar month", i.e. 23:59:59 of its last day. -/
def specLastSecondOfMonth (y m : Nat) : Nat :=
  toSec y m (daysInMonth y m) 23 59 59

/-! ## Decimal rendering (`strftime("%Y%m%d")` and `f"{n:02d}"`) -/

/-- Decimal digits of `n`, most significant first; `fuel` bounds recursion
and any `fuel > n` is enough. -/
def decDigitsAux : Nat → Nat → List Char
  | 0, _ => []
  | fuel + 1, n =>
    if n < 10 then [Nat.digitChar n]
    else decDigitsAux fuel (n / 10) ++ [Nat.digitChar (n % 10)]

/-- Decimal digits of `n`, most significant first (`str(n)` for a `Nat`). -/
def decDigits (n : Nat) : List Char := decDigitsAux (n + 1) n

/-- Zero-padded decimal rendering of width `w` (`f"{n:0wd}"`). -/
def padL (w n : Nat) : List Char :=
  List.replicate (w - (decDigits n).length) '0' ++ decDigits n

/-- Two-digit zero padding, `f"{n:02d}"`. -/
def pad2L (n : Nat) : List Char := padL 2 n

/-- The `%Y%m%d` rendering of a date, as characters. -/
def dateStrL (d : Date) : List Char := padL 4 d.year ++ padL 2 d.month ++ padL 2 d.day

/-- Numeric value of a digit character. -/
def charVal (c : Char) : Nat := c.toNat - 48

/-- Value of a digit string read left to right. -/
def valOf (l : List Char) : Nat := l.foldl (fun a c => a * 10 + charVal c) 0

/-! ## String utilities used by the routes -/

/-- Character-list test for `LIKE 'p%'`: is `p` an initial segment of `l`? -/
def isPre : List Char → List Char → Bool
  | [], _ => true
  | _ :: _, [] => false
  | a :: as, b :: bs => a == b && isPre as bs

/-- Does the list start with four digit characters? -/
def run4At : List Char → Bool
  | a :: b :: c :: d :: _ => a.isDigit && b.isDigit && c.isDigit && d.isDigit
  | _ => false

/-- `re.search(r"\d\d\d\d", s)`-style test: some position starts a run of at
least four consecutive digits. -/
def hasRun4 : List Char → Bool
  | [] => false
  | a :: t => run4At (a :: t) || hasRun4 t

/-- All-digit nonempty string to its numeric value. -/
def parseDigits (l : List Char) : Option Nat :=
  if l.isEmpty then none
  else if l.all (fun c => c.isDigit) then some (valOf l) else none

/-- Python `int(s)` on an already-stripped string: optional sign then digits. -/
def parseInt (s : String) : Option Int :=
  match s.data with
  | '-' :: rest => (parseDigits rest).map (fun n => -(n : Int))
  | '+' :: rest => (parseDigits rest).map (fun n => (n : Int))
  | l => (parseDigits l).map (fun n => (n : Int))

/-- ASCII uppercase of a string, character by character (`str.upper()`). -/
def upperOf (s : String) : String := String.mk (s.data.map Char.toUpper)

/-- `{"EIN": "Eingang", "AUS": "Ausgang"}.get(richtung_raw.upper())`. -/
def dirOf (richtung_raw : String) : Option String :=
  let u := upperOf richtung_raw
  if u == "EIN" then some "Eingang"
  else if u == "AUS" then some "Ausgang"
  else none

/-- Spread a quantity over the four category columns according to `typ`;
an unknown `typ` leaves all four at zero. -/
def distribute (typ : String) (menge : Int) : Saldo4 :=
  if typ == "EUP" then ⟨menge, 0, 0, 0⟩
  else if typ == "GB" then ⟨0, menge, 0, 0⟩
  else if typ == "TMB1" then ⟨0, 0, menge, 0⟩
  else if typ == "TMB2" then ⟨0, 0, 0, menge⟩
  else ⟨0, 0, 0, 0⟩

/-- Read the quantity column selected by `typ` from an entry. -/
def getMenge (e : Entry) (typ : String) : Int :=
  if typ == "EUP" then e.menge_eup
  else if typ == "GB" then e.menge_gb
  else if typ == "TMB1" then e.menge_tmb1
  else if typ == "TMB2" then e.menge_tmb2
  else 0

/-! ## Store queries -/

/-- `Partner.query.get(partner_id)`. -/
def findPartner (s : Store) (pid : Nat) : Option Partner :=
  s.partners.find? (fun p => p.id == pid)

/-- The accounts belonging to a partner, in table order (`partner.accounts`). -/
def accountsOf (s : Store) (pid : Nat) : List Account :=
  s.accounts.filter (fun a => a.partner_id == pid)

/-- The entries belonging to an account, in table order (`account.entries`). -/
def entriesFor (s : Store) (aid : Nat) : List Entry :=
  s.entries.filter (fun e => e.account_id == aid)

/-- `collect_partner_entries`: all bookings over all accounts of a partner. -/
def collect_partner_entries (s : Store) (pid : Nat) : List Entry :=
  (accountsOf s pid).flatMap (fun a => entriesFor s a.id)

/-- One step of scanning for the closure with the largest `period_end`
(stable: the earliest row wins among equal keys). -/
def latestStep (acc : Option MonthClosure) (c : MonthClosure) : Option MonthClosure :=
  match acc with
  | none => some c
  | some b => if c.period_end > b.period_end then some c else some b

/-- First element of a closure list sorted by `period_end` descending. -/
def pickLatest (l : List MonthClosure) : Option MonthClosure :=
  l.foldl latestStep none

/-- `get_last_closure_before`: most recent closure strictly before `dt`. -/
def get_last_closure_before (s : Store) (pid : Nat) (dt : Nat) : Option MonthClosure :=
  pickLatest (s.closures.filter (fun c => c.partner_id == pid && c.period_end < dt))

/-- The partner's single most recent closure by `period_end` (the lock used by
`new_entry` and `correction_entry`). -/
def lastClosure (s : Store) (pid : Nat) : Option MonthClosure :=
  pickLatest (s.closures.filter (fun c => c.partner_id == pid))

/-- All entries of the partner carrying a given belegnummer. -/
def belegGroup (s : Store) (pid : Nat) (beleg : String) : List Entry :=
  (collect_partner_entries s pid).filter (fun e => e.belegnummer == beleg)

/-- One step of scanning for the entry that sorts first under
`ORDER BY konto_seq DESC, id DESC`. -/
def maxSeqIdStep (acc : Option Entry) (e : Entry) : Option Entry :=
  match acc with
  | none => some e
  | some b =>
    if e.konto_seq > b.konto_seq || (e.konto_seq == b.konto_seq && e.id > b.id)
    then some e else some b

/-- First element under `ORDER BY konto_seq DESC, id DESC`. -/
def pickMaxSeqId (l : List Entry) : Option Entry :=
  l.foldl maxSeqIdStep none

/-- One step of scanning for the entry with the largest `konto_seq`
(stable among equal keys). -/
def maxSeqStep (acc : Option Entry) (e : Entry) : Option Entry :=
  match acc with
  | none => some e
  | some b => if e.konto_seq > b.konto_seq then some e else some b

/-- First element under `ORDER BY konto_seq DESC` (stable among equal keys). -/
def pickMaxSeq (l : List Entry) : Option Entry :=
  l.foldl maxSeqStep none

/-- The original booking targeted by a correction: most recent
Eingang/Ausgang entry of the partner with this belegnummer. -/
def findOriginal (s : Store) (pid : Nat) (beleg : String) : Option Entry :=
  pickMaxSeqId ((collect_partner_entries s pid).filter
    (fun e => e.belegnummer == beleg && (e.richtung == "Eingang" || e.richtung == "Ausgang")))

/-- `Entry.query.filter(Entry.belegnummer.like(prefix ++ "%")).count()`. -/
def prefixCount (s : Store) (p : List Char) : Nat :=
  (s.entries.filter (fun e => isPre p e.belegnummer.data)).length

/-- Next `konto_seq` for a correction: one past the largest sequence number in
the belegnummer group, defaulting to 1 when the group is empty. -/
def nextSeq (s : Store) (pid : Nat) (beleg : String) : Nat :=
  match pickMaxSeq (belegGroup s pid beleg) with
  | some last => last.konto_seq + 1
  | none => 1

/-! ## Balance calculator -/

/-- Per-entry sign multiplier: Eingang +1, Ausgang −1, Korrektur +1 (its sign
already lives in the stored quantity), any other direction +1. -/
def multiplier (richtung : String) : Int :=
  if richtung == "Eingang" then 1
  else if richtung == "Ausgang" then -1
  else if richtung == "Korrektur" then 1
  else 1

/-- Raw quantities of an entry as a category vector. -/
def mengeS (e : Entry) : Saldo4 :=
  ⟨e.menge_eup, e.menge_gb, e.menge_tmb1, e.menge_tmb2⟩

/-- Signed contribution of an entry: quantity times direction multiplier,
per category. -/
def contribS (e : Entry) : Saldo4 :=
  ⟨e.menge_eup * multiplier e.richtung, e.menge_gb * multiplier e.richtung,
   e.menge_tmb1 * multiplier e.richtung, e.menge_tmb2 * multiplier e.richtung⟩

/-- Accumulator of the balance loop. -/
structure CalcAcc where
  saldo_start : Saldo4
  movement : Saldo4
  sums_eingang : Saldo4
  sums_ausgang : Saldo4
  entries : List Entry
deriving DecidableEq

/-- Is `d` in the catch-up zone strictly between base date and period start? -/
def inCatch (b st d : Nat) : Bool := decide (b < d) && decide (d < st)

/-- Is `d` inside the requested period `[st, en]`? -/
def inPer (st en d : Nat) : Bool := decide (st ≤ d) && decide (d ≤ en)

/-- Body of the balance loop for one entry. -/
def calcStep (b st en : Nat) (acc : CalcAcc) (e : Entry) : CalcAcc :=
  match e.datum with
  | none => acc
  | some d =>
    if d ≤ b then acc
    else if inCatch b st d then
      { acc with saldo_start := acc.saldo_start.add (contribS e) }
    else if inPer st en d then
      { acc with
        entries := acc.entries ++ [e],
        movement := acc.movement.add (contribS e),
        sums_eingang :=
          if e.richtung == "Eingang" then acc.sums_eingang.add (mengeS e) else acc.sums_eingang,
        sums_ausgang :=
          if e.richtung == "Ausgang" then acc.sums_ausgang.add (mengeS e) else acc.sums_ausgang }
    else acc

/-- Entry predicate matching the branch of `calcStep` that feeds `saldo_start`. -/
def isCatchupE (b st : Nat) (e : Entry) : Bool :=
  match e.datum with
  | none => false
  | some d => !decide (d ≤ b) && inCatch b st d

/-- Entry predicate matching the branch of `calcStep` that feeds `movement`
and the period entry list. -/
def isInPeriodE (b st en : Nat) (e : Entry) : Bool :=
  match e.datum with
  | none => false
  | some d => !decide (d ≤ b) && !inCatch b st d && inPer st en d

/-- Sort key used for the final `entries.sort(key=..., reverse=True)`:
entries with no timestamp sort as `datetime.min`. -/
def datumKey (e : Entry) : Nat := e.datum.getD minDatetime

/-- Insert an entry into a descending-key list, before the first element whose
key it reaches (stable for equal keys). -/
def insertDesc (e : Entry) : List Entry → List Entry
  | [] => [e]
  | x :: xs => if datumKey e ≥ datumKey x then e :: x :: xs else x :: insertDesc e xs

/-- Stable sort, most recent booking first. -/
def sortDatumDesc : List Entry → List Entry
  | [] => []
  | e :: xs => insertDesc e (sortDatumDesc xs)

/-- Starting balance seeded from the last closure before the period, if any. -/
def closureSaldo (c : MonthClosure) : Saldo4 :=
  ⟨c.saldo_eup, c.saldo_gb, c.saldo_tmb1, c.saldo_tmb2⟩

def seedSaldo (s : Store) (pid st : Nat) : Saldo4 :=
  match get_last_closure_before s pid st with
  | some c => closureSaldo c
  | none => Saldo4.zero

/-- Cut-off below which entries are already embedded in the seeding closure. -/
def baseDate (s : Store) (pid st : Nat) : Nat :=
  match get_last_closure_before s pid st with
  | some c => c.period_end
  | none => minDatetime

/-- Result record of `calculate_saldo_and_sums`. -/
structure SaldoResult where
  entries : List Entry
  saldo_start : Saldo4
  movement : Saldo4
  saldo_end : Saldo4
  sums_eingang : Saldo4
  sums_ausgang : Saldo4
deriving DecidableEq

/-- `calculate_saldo_and_sums(partner_id, start_date, end_date)`. -/
def calculate_saldo_and_sums (s : Store) (pid st en : Nat) : Option SaldoResult :=
  match findPartner s pid with
  | none => none
  | some _ =>
    let all_entries := collect_partner_entries s pid
    let acc := all_entries.foldl (calcStep (baseDate s pid st) st en)
      ⟨seedSaldo s pid st, Saldo4.zero, Saldo4.zero, Saldo4.zero, []⟩
    some
      { entries := sortDatumDesc acc.entries,
        saldo_start := acc.saldo_start,
        movement := acc.movement,
        saldo_end := acc.saldo_start.add acc.movement,
        sums_eingang := acc.sums_eingang,
        sums_ausgang := acc.sums_ausgang }

/-! ## Write paths -/

/-- Append one entry row and advance the autoincrement counter. -/
def appendEntry (s : Store) (e : Entry) : Store :=
  { s with entries := s.entries ++ [e], next_entry_id := s.next_entry_id + 1 }

/-- The lock test of `new_entry`: the new effective timestamp falls on or
before the most recent closure's cutoff. -/
def lockTest (s : Store) (pid ts : Nat) : Bool :=
  match lastClosure s pid with
  | some lc => decide (ts ≤ lc.period_end)
  | none => false

/-- The entry row persisted by a successful `new_entry`. -/
def mkStdEntry (s : Store) (account : Account) (typ : String) (menge : Int)
    (richtung_db kommentar : String) (entry_date : Nat) (now : Now) : Entry :=
  { id := s.next_entry_id,
    belegnummer := String.mk (dateStrL now.date ++ pad2L (prefixCount s (dateStrL now.date) + 1)),
    datum := some entry_date,
    richtung := richtung_db,
    menge_eup := (distribute typ menge).eup,
    menge_gb := (distribute typ menge).gb,
    menge_tmb1 := (distribute typ menge).tmb1,
    menge_tmb2 := (distribute typ menge).tmb2,
    kommentar := kommentar,
    konto_seq := 0,
    erfasst_von := "Taach",
    account_id := account.id }

/-- POST handler of `/partner/<id>/new_entry`. -/
def new_entry (s : Store) (pid : Nat) (richtung_raw typ menge_str kommentar : String)
    (user_date : Date) (now : Now) : Except Err Store :=
  match findPartner s pid with
  | none => .error .PartnerNotFound
  | some _ =>
    match accountsOf s pid with
    | [] => .error .NoAccount
    | account :: _ =>
      if lockTest s pid (entryDate user_date now) then .error .ClosureLocked
      else
        match parseInt menge_str with
        | none => .error .InvalidQuantity
        | some menge =>
          match dirOf richtung_raw with
          | none => .error .InvalidDirection
          | some richtung_db =>
            if richtung_db == "Ausgang" && !hasRun4 kommentar.data then
              .error .MissingReferenceNumber
            else
              .ok (appendEntry s
                (mkStdEntry s account typ menge richtung_db kommentar (entryDate user_date now) now))

/-- The lock test of `correction_entry`, evaluated against the original
booking's timestamp (a `None` timestamp would raise in Python). -/
def corrLock (s : Store) (pid : Nat) (original : Entry) : Option Err :=
  match lastClosure s pid with
  | none => none
  | some lc =>
    match original.datum with
    | none => some .TypeErr
    | some od => if od ≤ lc.period_end then some .ClosureLocked else none

/-- The entry row persisted by a successful `correction_entry`. -/
def mkCorrEntry (s : Store) (account : Account) (pid : Nat) (beleg typ : String)
    (korr : Int) (kommentar : String) (entry_date : Nat) : Entry :=
  { id := s.next_entry_id,
    belegnummer := beleg,
    datum := some entry_date,
    richtung := "Korrektur",
    menge_eup := (distribute typ korr).eup,
    menge_gb := (distribute typ korr).gb,
    menge_tmb1 := (distribute typ korr).tmb1,
    menge_tmb2 := (distribute typ korr).tmb2,
    kommentar := kommentar,
    konto_seq := nextSeq s pid beleg,
    erfasst_von := "Taach",
    account_id := account.id }

/-- POST handler of `/partner/<id>/correction_entry`. -/
def correction_entry (s : Store) (pid : Nat) (beleg typ menge_str kommentar : String)
    (user_date : Date) (now : Now) : Except Err Store :=
  match findPartner s pid with
  | none => .error .PartnerNotFound
  | some _ =>
    match accountsOf s pid with
    | [] => .error .NoAccount
    | account :: _ =>
      if beleg == "" then .error .MissingBelegnummer
      else if kommentar == "" then .error .MissingKommentar
      else
        match findOriginal s pid beleg with
        | none => .error .OriginalEntryNotFound
        | some original =>
          match corrLock s pid original with
          | some err => .error err
          | none =>
            match parseInt menge_str with
            | none => .error .InvalidQuantity
            | some menge =>
              let korr := if original.richtung == "Ausgang" then menge else -menge
              .ok (appendEntry s
                (mkCorrEntry s account pid beleg typ korr kommentar (entryDate user_date now)))

/-- The closure row persisted by a successful `close_month`. -/
def mkClosure (s : Store) (pid year month : Nat) (result : SaldoResult) (now : Nat) :
    MonthClosure :=
  { id := s.next_closure_id,
    partner_id := pid,
    year := year,
    month := month,
    saldo_eup := result.saldo_end.eup,
    saldo_gb := result.saldo_end.gb,
    saldo_tmb1 := result.saldo_end.tmb1,
    saldo_tmb2 := result.saldo_end.tmb2,
    period_end := (month_range year month).2,
    created_at := now }

/-- POST handler of `/partner/<id>/close_month`. -/
def close_month (s : Store) (pid year month : Nat) (now : Nat) : Except Err Store :=
  match findPartner s pid with
  | none => .error .PartnerNotFound
  | some _ =>
    if s.closures.any (fun c => c.partner_id == pid && c.year == year && c.month == month) then
      .error .DuplicateClosure
    else
      match calculate_saldo_and_sums s pid minDatetime (month_range year month).2 with
      | none => .error .PartnerNotFound
      | some result =>
        .ok { s with
          closures := s.closures ++ [mkClosure s pid year month result now],
          next_closure_id := s.next_closure_id + 1 }

/-- POST handler of `/partner/new`: a partner plus one empty account. -/
def new_partner (s : Store) (name : String) : Except Err Store :=
  if name == "" then .error .MissingName
  else
    .ok { s with
      partners := s.partners ++ [{ id := s.next_partner_id, name := name }],
      accounts := s.accounts ++ [{ id := s.next_account_id, partner_id := s.next_partner_id }],
      next_partner_id := s.next_partner_id + 1,
      next_account_id := s.next_account_id + 1 }

/-- POST handler of `/partner/<id>/delete`: removes the partner's closures,
the entries of each of its accounts, its accounts, and the partner row. -/
def delete_partner (s : Store) (pid : Nat) : Except Err Store :=
  match findPartner s pid with
  | none => .error .PartnerNotFound
  | some partner =>
    .ok { s with
      closures := s.closures.filter (fun c => !(c.partner_id == partner.id)),
      entries := s.entries.filter
        (fun e => !((accountsOf s partner.id).any (fun a => a.id == e.account_id))),
      accounts := s.accounts.filter (fun a => !(a.partner_id == partner.id)),
      partners := s.partners.filter (fun p => !(p.id == partner.id)) }

/-! ## Saldo4 algebra and loop characterization -/

theorem Saldo4.add_zero_r (a : Saldo4) : a.add Saldo4.zero = a := by
  cases a; simp [Saldo4.add, Saldo4.zero]

theorem Saldo4.zero_add_l (a : Saldo4) : Saldo4.zero.add a = a := by
  cases a; simp [Saldo4.add, Saldo4.zero]

theorem Saldo4.add_assoc (a b c : Saldo4) : (a.add b).add c = a.add (b.add c) := by
  cases a; cases b; cases c
  simp only [Saldo4.add, Saldo4.mk.injEq]
  omega

/-- Categorywise sum of a function over a list of entries. -/
def sumS (f : Entry → Saldo4) : List Entry → Saldo4
  | [] => Saldo4.zero
  | e :: l => (f e).add (sumS f l)

theorem foldl_calcStep_saldo_start (b st en : Nat) (l : List Entry) : ∀ acc : CalcAcc,
    (l.foldl (calcStep b st en) acc).saldo_start
      = acc.saldo_start.add (sumS contribS (l.filter (isCatchupE b st))) := by
  induction l with
  | nil => intro acc; simp [sumS, Saldo4.add_zero_r]
  | cons e l ih =>
    intro acc
    rw [List.foldl_cons, List.filter_cons, ih]
    unfold calcStep isCatchupE
    cases hd : e.datum with
    | none => simp
    | some d =>
      by_cases h1 : d ≤ b
      · simp [h1]
      · cases h2 : inCatch b st d with
        | true => simp [h1, h2, sumS, Saldo4.add_assoc]
        | false =>
          cases h3 : inPer st en d with
          | true => simp [h1, h2, h3]
          | false => simp [h1, h2, h3]

theorem foldl_calcStep_movement (b st en : Nat) (l : List Entry) : ∀ acc : CalcAcc,
    (l.foldl (calcStep b st en) acc).movement
      = acc.movement.add (sumS contribS (l.filter (isInPeriodE b st en))) := by
  induction l with
  | nil => intro acc; simp [sumS, Saldo4.add_zero_r]
  | cons e l ih =>
    intro acc
    rw [List.foldl_cons, List.filter_cons, ih]
    unfold calcStep isInPeriodE
    cases hd : e.datum with
    | none => simp
    | some d =>
      by_cases h1 : d ≤ b
      · simp [h1]
      · cases h2 : inCatch b st d with
        | true => simp [h1, h2]
        | false =>
          cases h3 : inPer st en d with
          | true => simp [h1, h2, h3, sumS, Saldo4.add_assoc]
          | false => simp [h1, h2, h3]

theorem foldl_calcStep_entries (b st en : Nat) (l : List Entry) : ∀ acc : CalcAcc,
    (l.foldl (calcStep b st en) acc).entries
      = acc.entries ++ l.filter (isInPeriodE b st en) := by
  induction l with
  | nil => intro acc; simp
  | cons e l ih =>
    intro acc
    rw [List.foldl_cons, List.filter_cons, ih]
    unfold calcStep isInPeriodE
    cases hd : e.datum with
    | none => simp
    | some d =>
      by_cases h1 : d ≤ b
      · simp [h1]
      · cases h2 : inCatch b st d with
        | true => simp [h1, h2]
        | false =>
          cases h3 : inPer st en d with
          | true => simp [h1, h2, h3]
          | false => simp [h1, h2, h3]

theorem mem_insertDesc (e a : Entry) (l : List Entry) :
    a ∈ insertDesc e l ↔ a = e ∨ a ∈ l := by
  induction l with
  | nil => simp [insertDesc]
  | cons x xs ih =>
    unfold insertDesc
    by_cases h : datumKey e ≥ datumKey x
    · simp [h]
    · simp [h, ih]
      tauto

theorem mem_sortDatumDesc (a : Entry) (l : List Entry) :
    a ∈ sortDatumDesc l ↔ a ∈ l := by
  induction l with
  | nil => simp [sortDatumDesc]
  | cons x xs ih => simp [sortDatumDesc, mem_insertDesc, ih]

/-- The result of a successful balance computation, componentwise. -/
theorem calc_proj (s : Store) (pid st en : Nat) (r : SaldoResult)
    (h : calculate_saldo_and_sums s pid st en = some r) :
    r.saldo_start = (seedSaldo s pid st).add
      (sumS contribS ((collect_partner_entries s pid).filter (isCatchupE (baseDate s pid st) st)))
    ∧ r.movement = sumS contribS
      ((collect_partner_entries s pid).filter (isInPeriodE (baseDate s pid st) st en))
    ∧ r.entries = sortDatumDesc
      ((collect_partner_entries s pid).filter (isInPeriodE (baseDate s pid st) st en))
    ∧ r.saldo_end = r.saldo_start.add r.movement := by
  unfold calculate_saldo_and_sums at h
  cases hp : findPartner s pid with
  | none => rw [hp] at h; exact absurd h (by simp)
  | some p =>
    rw [hp] at h
    simp only [Option.some.injEq] at h
    subst h
    refine ⟨?_, ?_, ?_, rfl⟩
    · rw [foldl_calcStep_saldo_start]
    · rw [foldl_calcStep_movement, Saldo4.zero_add_l]
    · rw [foldl_calcStep_entries]
      simp

theorem calc_isSome (s : Store) (pid st en : Nat) (p : Partner)
    (hp : findPartner s pid = some p) :
    ∃ r, calculate_saldo_and_sums s pid st en = some r := by
  unfold calculate_saldo_and_sums
  rw [hp]
  exact ⟨_, rfl⟩

/-! ## Claim C2 -/

/-- C2: for every existing partner and period with `st ≤ en`, the balance
computation satisfies `saldoEnd = saldoStart + movement` in each of the four
pallet categories, where `saldoStart` is the value after catch-up entries have
been folded in (it is the final, post-loop `saldo_start`). -/
theorem c2_saldo_end_eq_start_add_movement (s : Store) (pid st en : Nat) (r : SaldoResult)
    (_hse : st ≤ en) (h : calculate_saldo_and_sums s pid st en = some r) :
    r.saldo_end.eup = r.saldo_start.eup + r.movement.eup ∧
    r.saldo_end.gb = r.saldo_start.gb + r.movement.gb ∧
    r.saldo_end.tmb1 = r.saldo_start.tmb1 + r.movement.tmb1 ∧
    r.saldo_end.tmb2 = r.saldo_start.tmb2 + r.movement.tmb2 := by
  obtain ⟨-, -, -, h4⟩ := calc_proj s pid st en r h
  rw [h4]
  cases r.saldo_start
  cases r.movement
  simp [Saldo4.add]

/-- A store with one partner, a closure at cutoff 100, a catch-up entry at
150, and two period entries at 250/260, used to instantiate the theorems. -/
def wStore : Store :=
  { partners := [⟨1, "A"⟩],
    accounts := [⟨1, 1⟩],
    entries :=
      [⟨1, "2024011001", some 150, "Eingang", 10, 0, 0, 0, "in", 0, "Taach", 1⟩,
       ⟨2, "2024011201", some 250, "Ausgang", 4, 0, 0, 0, "doc-10023", 0, "Taach", 1⟩,
       ⟨3, "2024011201", some 260, "Korrektur", 2, 0, 0, 0, "fix", 1, "Taach", 1⟩],
    closures := [⟨1, 1, 2024, 1, 3, 0, 0, 0, 100, 99⟩],
    next_partner_id := 2,
    next_account_id := 2,
    next_entry_id := 4,
    next_closure_id := 2 }

def wCalc : SaldoResult :=
  (calculate_saldo_and_sums wStore 1 200 300).getD
    ⟨[], Saldo4.zero, Saldo4.zero, Saldo4.zero, Saldo4.zero, Saldo4.zero⟩

theorem c2_saldo_end_eq_start_add_movement_witness :
    wCalc.saldo_end.eup = wCalc.saldo_start.eup + wCalc.movement.eup ∧
    wCalc.saldo_end.gb = wCalc.saldo_start.gb + wCalc.movement.gb ∧
    wCalc.saldo_end.tmb1 = wCalc.saldo_start.tmb1 + wCalc.movement.tmb1 ∧
    wCalc.saldo_end.tmb2 = wCalc.saldo_start.tmb2 + wCalc.movement.tmb2 :=
  c2_saldo_end_eq_start_add_movement wStore 1 200 300 wCalc (by decide) (by rfl)

/-! ## Claim C5 -/

/-- C5: every entry strictly between the base date (seeding closure's
`period_end`, or the minimum timestamp) and the period start is folded into
`saldoStart` with its quantity times direction multiplier per category;
`movement` sums only the in-period entries, and no catch-up entry is in the
returned entry list. -/
theorem c5_catchup_zone (s : Store) (pid st en : Nat) (r : SaldoResult)
    (h : calculate_saldo_and_sums s pid st en = some r) :
    r.saldo_start = (seedSaldo s pid st).add
      (sumS contribS ((collect_partner_entries s pid).filter (isCatchupE (baseDate s pid st) st)))
    ∧ r.movement = sumS contribS
      ((collect_partner_entries s pid).filter (isInPeriodE (baseDate s pid st) st en))
    ∧ ∀ e, isCatchupE (baseDate s pid st) st e = true → e ∉ r.entries := by
  obtain ⟨h1, h2, h3, -⟩ := calc_proj s pid st en r h
  refine ⟨h1, h2, ?_⟩
  intro e he hmem
  rw [h3, mem_sortDatumDesc] at hmem
  have hper := List.of_mem_filter hmem
  unfold isCatchupE at he
  unfold isInPeriodE at hper
  cases hd : e.datum with
  | none => rw [hd] at he; exact absurd he (by simp)
  | some d =>
    rw [hd] at he hper
    simp only [Bool.and_eq_true, Bool.not_eq_eq_eq_not, Bool.not_true] at he hper
    exact absurd hper.1.2 (by simp [he.2])

theorem c5_catchup_zone_witness :
    wCalc.saldo_start = (seedSaldo wStore 1 200).add
      (sumS contribS ((collect_partner_entries wStore 1).filter (isCatchupE (baseDate wStore 1 200) 200)))
    ∧ wCalc.movement = sumS contribS
      ((collect_partner_entries wStore 1).filter (isInPeriodE (baseDate wStore 1 200) 200 300))
    ∧ ∀ e, isCatchupE (baseDate wStore 1 200) 200 e = true → e ∉ wCalc.entries :=
  c5_catchup_zone wStore 1 200 300 wCalc (by rfl)

/-! ## Entry recorder: success and failure characterizations -/

theorem new_entry_ok_of (s : Store) (pid : Nat) (r t m k : String) (d : Date) (now : Now)
    (p : Partner) (a : Account) (tl : List Account) (q : Int) (rdb : String)
    (hp : findPartner s pid = some p) (ha : accountsOf s pid = a :: tl)
    (hl : lockTest s pid (entryDate d now) = false)
    (hq : parseInt m = some q) (hr : dirOf r = some rdb)
    (hcom : (rdb == "Ausgang" && !hasRun4 k.data) = false) :
    new_entry s pid r t m k d now =
      .ok (appendEntry s (mkStdEntry s a t q rdb k (entryDate d now) now)) := by
  unfold new_entry
  rw [hp, ha, hl, hq, hr]
  simp [hcom]

theorem new_entry_ok_inv (s : Store) (pid : Nat) (r t m k : String) (d : Date) (now : Now)
    (s' : Store) (h : new_entry s pid r t m k d now = .ok s') :
    ∃ p a tl q rdb,
      findPartner s pid = some p ∧ accountsOf s pid = a :: tl ∧
      lockTest s pid (entryDate d now) = false ∧
      parseInt m = some q ∧ dirOf r = some rdb ∧
      (rdb == "Ausgang" && !hasRun4 k.data) = false ∧
      s' = appendEntry s (mkStdEntry s a t q rdb k (entryDate d now) now) := by
  unfold new_entry at h
  split at h
  next => exact absurd h (by simp)
  next p hp =>
  split at h
  next => exact absurd h (by simp)
  next a tl ha =>
  split at h
  next => exact absurd h (by simp)
  next hl =>
  split at h
  next => exact absurd h (by simp)
  next q hq =>
  split at h
  next => exact absurd h (by simp)
  next rdb hr =>
  split at h
  next => exact absurd h (by simp)
  next hcom =>
  simp only [Except.ok.injEq] at h
  rw [Bool.not_eq_true] at hl hcom
  exact ⟨p, a, tl, q, rdb, hp, ha, hl, hq, hr, hcom, h.symm⟩

theorem correction_ok_of (s : Store) (pid : Nat) (b t m k : String) (d : Date) (now : Now)
    (p : Partner) (a : Account) (tl : List Account) (o : Entry) (q : Int)
    (hp : findPartner s pid = some p) (ha : accountsOf s pid = a :: tl)
    (hb : (b == "") = false) (hk : (k == "") = false)
    (ho : findOriginal s pid b = some o) (hlock : corrLock s pid o = none)
    (hq : parseInt m = some q) :
    correction_entry s pid b t m k d now =
      .ok (appendEntry s (mkCorrEntry s a pid b t
        (if o.richtung == "Ausgang" then q else -q) k (entryDate d now))) := by
  unfold correction_entry
  rw [hp, ha, hb, hk, ho]
  simp [hlock, hq]

theorem correction_ok_inv (s : Store) (pid : Nat) (b t m k : String) (d : Date) (now : Now)
    (s' : Store) (h : correction_entry s pid b t m k d now = .ok s') :
    ∃ p a tl o q,
      findPartner s pid = some p ∧ accountsOf s pid = a :: tl ∧
      (b == "") = false ∧ (k == "") = false ∧
      findOriginal s pid b = some o ∧ corrLock s pid o = none ∧
      parseInt m = some q ∧
      s' = appendEntry s (mkCorrEntry s a pid b t
        (if o.richtung == "Ausgang" then q else -q) k (entryDate d now)) := by
  unfold correction_entry at h
  split at h
  next => exact absurd h (by simp)
  next p hp =>
  split at h
  next => exact absurd h (by simp)
  next a tl ha =>
  split at h
  next => exact absurd h (by simp)
  next hb =>
  split at h
  next => exact absurd h (by simp)
  next hk =>
  split at h
  next => exact absurd h (by simp)
  next o ho =>
  split at h
  next err hlock => exact absurd h (by simp)
  next hlock =>
  split at h
  next => exact absurd h (by simp)
  next q hq =>
  simp only [Except.ok.injEq] at h
  rw [Bool.not_eq_true] at hb hk
  exact ⟨p, a, tl, o, q, hp, ha, hb, hk, ho, hlock, hq, h.symm⟩

/-! ## Claim C8 -/

/-- C8: with the checks preceding the reference-number validation passing, an
Outbound booking whose comment has no run of four consecutive digits fails
with `MissingReferenceNumber`, and one whose comment has such a run is
persisted. -/
theorem c8_outbound_reference_check (s : Store) (pid : Nat) (r t m k : String) (d : Date)
    (now : Now) (p : Partner) (a : Account) (tl : List Account) (q : Int)
    (hp : findPartner s pid = some p) (ha : accountsOf s pid = a :: tl)
    (hl : lockTest s pid (entryDate d now) = false) (hq : parseInt m = some q)
    (hr : dirOf r = some "Ausgang") :
    (hasRun4 k.data = false → new_entry s pid r t m k d now = .error .MissingReferenceNumber) ∧
    (hasRun4 k.data = true → ∃ e, new_entry s pid r t m k d now = .ok (appendEntry s e)) := by
  constructor
  · intro hk
    unfold new_entry
    rw [hp, ha]
    simp [hl, hq, hr, hk]
  · intro hk
    exact ⟨_, new_entry_ok_of s pid r t m k d now p a tl q "Ausgang" hp ha hl hq hr (by simp [hk])⟩

/-- A store with one partner, one account and nothing else. -/
def pStore : Store :=
  { partners := [⟨1, "A"⟩], accounts := [⟨1, 1⟩], entries := [], closures := [],
    next_partner_id := 2, next_account_id := 2, next_entry_id := 1, next_closure_id := 1 }

theorem c8_outbound_reference_check_witness :
    new_entry pStore 1 "AUS" "EUP" "5" "no numbers here" ⟨2024, 3, 1⟩ ⟨⟨2024, 3, 1⟩, 60⟩
      = .error .MissingReferenceNumber ∧
    ∃ e, new_entry pStore 1 "AUS" "EUP" "5" "ref 1234" ⟨2024, 3, 1⟩ ⟨⟨2024, 3, 1⟩, 60⟩
      = .ok (appendEntry pStore e) :=
  ⟨(c8_outbound_reference_check pStore 1 "AUS" "EUP" "5" "no numbers here" ⟨2024, 3, 1⟩
      ⟨⟨2024, 3, 1⟩, 60⟩ ⟨1, "A"⟩ ⟨1, 1⟩ [] 5 (by rfl) (by rfl) (by rfl) (by rfl) (by rfl)).1
    (by decide),
   (c8_outbound_reference_check pStore 1 "AUS" "EUP" "5" "ref 1234" ⟨2024, 3, 1⟩
      ⟨⟨2024, 3, 1⟩, 60⟩ ⟨1, "A"⟩ ⟨1, 1⟩ [] 5 (by rfl) (by rfl) (by rfl) (by rfl) (by rfl)).2
    (by decide)⟩

/-! ## Claim C9 -/

/-- The most recent closure of the counterexample store locks all of
January 2024. -/
def c9Store : Store :=
  { partners := [⟨1, "A"⟩], accounts := [⟨1, 1⟩],
    entries :=
      [⟨1, "2024011001", some (toSec 2024 1 10 9 0 0), "Eingang", 6, 0, 0, 0, "start", 0, "Taach", 1⟩],
    closures := [⟨1, 1, 2024, 1, 6, 0, 0, 0, (month_range 2024 1).2, toSec 2024 2 1 8 0 0⟩],
    next_partner_id := 2, next_account_id := 2, next_entry_id := 2, next_closure_id := 2 }

/-- C9 counterexample: a call whose direction maps to neither Inbound nor
Outbound (and whose quantity does not even parse) but whose date is locked
fails with `ClosureLocked`, not `InvalidDirection`: the direction check runs
only after the lock and quantity checks. -/
theorem c9_counterexample :
    dirOf "XX" = none ∧ parseInt "abc" = none ∧
    new_entry c9Store 1 "XX" "EUP" "abc" "hi" ⟨2024, 1, 10⟩ ⟨⟨2024, 2, 7⟩, 0⟩
      = .error .ClosureLocked := by
  refine ⟨by decide, by decide, by rfl⟩

/-- C9 amended: a call that reaches the direction check (valid partner and
account, date not locked, quantity parses) with a direction mapping to
neither Inbound nor Outbound fails with `InvalidDirection` and persists
nothing. -/
theorem c9_invalid_direction (s : Store) (pid : Nat) (r t m k : String) (d : Date)
    (now : Now) (p : Partner) (a : Account) (tl : List Account) (q : Int)
    (hp : findPartner s pid = some p) (ha : accountsOf s pid = a :: tl)
    (hl : lockTest s pid (entryDate d now) = false) (hq : parseInt m = some q)
    (hr : dirOf r = none) :
    new_entry s pid r t m k d now = .error .InvalidDirection := by
  unfold new_entry
  rw [hp, ha]
  simp [hl, hq, hr]

theorem c9_invalid_direction_witness :
    new_entry pStore 1 "XX" "EUP" "5" "hi" ⟨2024, 3, 1⟩ ⟨⟨2024, 3, 1⟩, 60⟩
      = .error .InvalidDirection :=
  c9_invalid_direction pStore 1 "XX" "EUP" "5" "hi" ⟨2024, 3, 1⟩ ⟨⟨2024, 3, 1⟩, 60⟩
    ⟨1, "A"⟩ ⟨1, 1⟩ [] 5 (by rfl) (by rfl) (by rfl) (by rfl) (by rfl)

/-! ## Claim C10 -/

theorem distribute_unknown (t : String) (q : Int)
    (h1 : t ≠ "EUP") (h2 : t ≠ "GB") (h3 : t ≠ "TMB1") (h4 : t ≠ "TMB2") :
    distribute t q = ⟨0, 0, 0, 0⟩ := by
  unfold distribute
  simp only [beq_iff_eq]
  rw [if_neg h1, if_neg h2, if_neg h3, if_neg h4]

/-- C10: a call passing all validations but naming a category outside
EUP/GB/TMB1/TMB2 reports no error — both recorders persist an entry whose
four quantity columns are all zero, silently discarding the quantity. -/
theorem c10_unknown_category :
    (∀ (s : Store) (pid : Nat) (r t m k : String) (d : Date) (now : Now)
      (p : Partner) (a : Account) (tl : List Account) (q : Int) (rdb : String),
      findPartner s pid = some p → accountsOf s pid = a :: tl →
      lockTest s pid (entryDate d now) = false → parseInt m = some q →
      dirOf r = some rdb → (rdb == "Ausgang" && !hasRun4 k.data) = false →
      t ≠ "EUP" → t ≠ "GB" → t ≠ "TMB1" → t ≠ "TMB2" →
      ∃ e, new_entry s pid r t m k d now = .ok (appendEntry s e) ∧
        e.menge_eup = 0 ∧ e.menge_gb = 0 ∧ e.menge_tmb1 = 0 ∧ e.menge_tmb2 = 0) ∧
    (∀ (s : Store) (pid : Nat) (b t m k : String) (d : Date) (now : Now)
      (p : Partner) (a : Account) (tl : List Account) (o : Entry) (q : Int),
      findPartner s pid = some p → accountsOf s pid = a :: tl →
      (b == "") = false → (k == "") = false →
      findOriginal s pid b = some o → corrLock s pid o = none → parseInt m = some q →
      t ≠ "EUP" → t ≠ "GB" → t ≠ "TMB1" → t ≠ "TMB2" →
      ∃ e, correction_entry s pid b t m k d now = .ok (appendEntry s e) ∧
        e.menge_eup = 0 ∧ e.menge_gb = 0 ∧ e.menge_tmb1 = 0 ∧ e.menge_tmb2 = 0) := by
  constructor
  · intro s pid r t m k d now p a tl q rdb hp ha hl hq hr hcom h1 h2 h3 h4
    refine ⟨mkStdEntry s a t q rdb k (entryDate d now) now,
      new_entry_ok_of s pid r t m k d now p a tl q rdb hp ha hl hq hr hcom, ?_⟩
    simp [mkStdEntry, distribute_unknown t q h1 h2 h3 h4]
  · intro s pid b t m k d now p a tl o q hp ha hb hk ho hlock hq h1 h2 h3 h4
    refine ⟨mkCorrEntry s a pid b t (if o.richtung == "Ausgang" then q else -q) k (entryDate d now),
      correction_ok_of s pid b t m k d now p a tl o q hp ha hb hk ho hlock hq, ?_⟩
    simp [mkCorrEntry, distribute_unknown t _ h1 h2 h3 h4]

theorem c10_unknown_category_witness :
    (∃ e, new_entry pStore 1 "EIN" "WEIRD" "9" "x" ⟨2024, 3, 1⟩ ⟨⟨2024, 3, 1⟩, 60⟩
      = .ok (appendEntry pStore e) ∧
      e.menge_eup = 0 ∧ e.menge_gb = 0 ∧ e.menge_tmb1 = 0 ∧ e.menge_tmb2 = 0) :=
  c10_unknown_category.1 pStore 1 "EIN" "WEIRD" "9" "x" ⟨2024, 3, 1⟩ ⟨⟨2024, 3, 1⟩, 60⟩
    ⟨1, "A"⟩ ⟨1, 1⟩ [] 9 "Eingang" (by rfl) (by rfl) (by rfl) (by rfl) (by rfl) (by rfl)
    (by decide) (by decide) (by decide) (by decide)

/-! ## Claim C1 -/

/-- C1 amended: `new_entry` never persists an entry whose effective timestamp
is on or before the most recent closure's `period_end`; `correction_entry`
evaluates the lock against the original entry's timestamp — it only succeeds
when the original's `datum` is strictly after that `period_end` (while the
persisted correction's own timestamp is unconstrained). -/
theorem c1_lock_checks :
    (∀ (s : Store) (pid : Nat) (r t m k : String) (d : Date) (now : Now) (s' : Store)
      (lc : MonthClosure),
      new_entry s pid r t m k d now = .ok s' → lastClosure s pid = some lc →
      entryDate d now > lc.period_end) ∧
    (∀ (s : Store) (pid : Nat) (b t m k : String) (d : Date) (now : Now) (s' : Store)
      (lc : MonthClosure) (o : Entry),
      correction_entry s pid b t m k d now = .ok s' → lastClosure s pid = some lc →
      findOriginal s pid b = some o →
      ∃ od, o.datum = some od ∧ od > lc.period_end) := by
  constructor
  · intro s pid r t m k d now s' lc h hlc
    obtain ⟨p, a, tl, q, rdb, hp, ha, hl, -, -, -, -⟩ :=
      new_entry_ok_inv s pid r t m k d now s' h
    unfold lockTest at hl
    rw [hlc] at hl
    simp at hl
    omega
  · intro s pid b t m k d now s' lc o h hlc ho
    obtain ⟨p, a, tl, o', q, hp, ha, hb, hk, ho', hlock, -, -⟩ :=
      correction_ok_inv s pid b t m k d now s' h
    rw [ho] at ho'
    obtain rfl : o = o' := Option.some.inj ho'
    unfold corrLock at hlock
    rw [hlc] at hlock
    cases hd : o.datum with
    | none => rw [hd] at hlock; exact absurd hlock (by simp)
    | some od =>
      rw [hd] at hlock
      simp at hlock
      exact ⟨od, rfl, by omega⟩

/-- The closure freezing January 2024 in the C1 store. -/
def c1Closure : MonthClosure :=
  ⟨1, 1, 2024, 1, 6, 0, 0, 0, (month_range 2024 1).2, toSec 2024 2 1 8 0 0⟩

/-- Store with January 2024 closed and an Outbound original dated February 5. -/
def c1Store : Store :=
  { partners := [⟨1, "A"⟩], accounts := [⟨1, 1⟩],
    entries :=
      [⟨1, "2024011001", some (toSec 2024 1 10 9 0 0), "Eingang", 6, 0, 0, 0, "start", 0, "Taach", 1⟩,
       ⟨2, "2024020501", some (toSec 2024 2 5 10 0 0), "Ausgang", 5, 0, 0, 0, "inv-4471", 0, "Taach", 1⟩],
    closures := [c1Closure],
    next_partner_id := 2, next_account_id := 2, next_entry_id := 3, next_closure_id := 2 }

/-- The correction entry persisted in the C1 counterexample, dated
January 15 2024 — inside the closed month. -/
def c1Corr : Entry :=
  mkCorrEntry c1Store ⟨1, 1⟩ 1 "2024020501" "EUP" 2 "fix"
    (entryDate ⟨2024, 1, 15⟩ ⟨⟨2024, 2, 6⟩, 3600⟩)

/-- C1 counterexample: with January 2024 closed (most recent closure cutoff
`period_end`), a correction against a February original but dated January 15
succeeds and persists an entry whose effective timestamp is on or before
`period_end`, refuting the claim's universal no-persist statement. -/
theorem c1_counterexample :
    (lastClosure c1Store 1).map (fun c => c.period_end) = some (month_range 2024 1).2 ∧
    correction_entry c1Store 1 "2024020501" "EUP" "2" "fix" ⟨2024, 1, 15⟩ ⟨⟨2024, 2, 6⟩, 3600⟩
      = .ok (appendEntry c1Store c1Corr) ∧
    c1Corr.datum = some (entryDate ⟨2024, 1, 15⟩ ⟨⟨2024, 2, 6⟩, 3600⟩) ∧
    entryDate ⟨2024, 1, 15⟩ ⟨⟨2024, 2, 6⟩, 3600⟩ ≤ (month_range 2024 1).2 := by
  refine ⟨by rfl, by rfl, by rfl, by decide⟩

/-- The entry appended by the C1 witness call. -/
def c1New : Entry :=
  mkStdEntry c1Store ⟨1, 1⟩ "EUP" 3 "Eingang" "x"
    (entryDate ⟨2024, 2, 2⟩ ⟨⟨2024, 2, 2⟩, 60⟩) ⟨⟨2024, 2, 2⟩, 60⟩

theorem c1_lock_checks_witness :
    entryDate ⟨2024, 2, 2⟩ ⟨⟨2024, 2, 2⟩, 60⟩ > c1Closure.period_end :=
  c1_lock_checks.1 c1Store 1 "EIN" "EUP" "3" "x" ⟨2024, 2, 2⟩ ⟨⟨2024, 2, 2⟩, 60⟩
    (appendEntry c1Store c1New) c1Closure (by rfl) (by rfl)

/-! ## Claim C7 -/

theorem isPre_append_self (p t : List Char) : isPre p (p ++ t) = true := by
  induction p with
  | nil => rfl
  | cons a as ih => simp [isPre, ih]

theorem prefixCount_appendEntry (s : Store) (e : Entry) (p : List Char) :
    prefixCount (appendEntry s e) p
      = prefixCount s p + (if isPre p e.belegnummer.data then 1 else 0) := by
  unfold prefixCount appendEntry
  simp only [List.filter_append, List.length_append]
  split
  next h => simp [List.filter, h]
  next h => simp [List.filter, h]

/-- C7: every successful `new_entry` generates the belegnummer
`today-as-YYYYMMDD` followed by `1 + count of entries whose belegnummer
starts with that prefix`, zero-padded to two digits; in particular two
entries recorded on the same calendar date, when no other entry carries the
prefix yet, get the distinct suffixes "01" and "02". -/
theorem c7_belegnummer_generation :
    (∀ (s : Store) (pid : Nat) (r t m k : String) (d : Date) (now : Now) (s' : Store),
      new_entry s pid r t m k d now = .ok s' →
      ∃ e, s'.entries = s.entries ++ [e] ∧
        e.belegnummer
          = String.mk (dateStrL now.date ++ pad2L (prefixCount s (dateStrL now.date) + 1))) ∧
    (∀ (s : Store) (pid1 pid2 : Nat) (r1 t1 m1 k1 r2 t2 m2 k2 : String) (d1 d2 : Date)
      (now1 now2 : Now) (s1 s2 : Store),
      prefixCount s (dateStrL now1.date) = 0 → now2.date = now1.date →
      new_entry s pid1 r1 t1 m1 k1 d1 now1 = .ok s1 →
      new_entry s1 pid2 r2 t2 m2 k2 d2 now2 = .ok s2 →
      ∃ e1 e2, s1.entries = s.entries ++ [e1] ∧ s2.entries = s1.entries ++ [e2] ∧
        e1.belegnummer = String.mk (dateStrL now1.date ++ ['0', '1']) ∧
        e2.belegnummer = String.mk (dateStrL now1.date ++ ['0', '2']) ∧
        e1.belegnummer ≠ e2.belegnummer) := by
  have main : ∀ (s : Store) (pid : Nat) (r t m k : String) (d : Date) (now : Now) (s' : Store),
      new_entry s pid r t m k d now = .ok s' →
      ∃ e, s' = appendEntry s e ∧
        e.belegnummer
          = String.mk (dateStrL now.date ++ pad2L (prefixCount s (dateStrL now.date) + 1)) := by
    intro s pid r t m k d now s' h
    obtain ⟨p, a, tl, q, rdb, hp, ha, hl, hq, hr, hcom, hs⟩ :=
      new_entry_ok_inv s pid r t m k d now s' h
    exact ⟨_, hs, rfl⟩
  constructor
  · intro s pid r t m k d now s' h
    obtain ⟨e, hs, hb⟩ := main s pid r t m k d now s' h
    exact ⟨e, by rw [hs]; rfl, hb⟩
  · intro s pid1 pid2 r1 t1 m1 k1 r2 t2 m2 k2 d1 d2 now1 now2 s1 s2 h0 hdate h1 h2
    obtain ⟨e1, hs1, hb1⟩ := main s pid1 r1 t1 m1 k1 d1 now1 s1 h1
    obtain ⟨e2, hs2, hb2⟩ := main s1 pid2 r2 t2 m2 k2 d2 now2 s2 h2
    rw [h0] at hb1
    have hc1 : prefixCount s1 (dateStrL now1.date) = 1 := by
      rw [hs1, prefixCount_appendEntry, h0, hb1]
      simp [isPre_append_self]
    rw [hdate, hc1] at hb2
    rw [show pad2L (0 + 1) = ['0', '1'] from by decide] at hb1
    rw [show pad2L (1 + 1) = ['0', '2'] from by decide] at hb2
    refine ⟨e1, e2, by rw [hs1]; rfl, by rw [hs2]; rfl, hb1, hb2, ?_⟩
    rw [hb1, hb2]
    intro hcontra
    have hdata := congrArg String.data hcontra
    simp only [String.data] at hdata
    have := List.append_cancel_left hdata
    simp at this

/-- Two same-day bookings on the empty-ledger store used as the C7 witness. -/
def c7s1 : Store :=
  appendEntry pStore
    (mkStdEntry pStore ⟨1, 1⟩ "EUP" 5 "Eingang" "x"
      (entryDate ⟨2024, 3, 1⟩ ⟨⟨2024, 3, 1⟩, 100⟩) ⟨⟨2024, 3, 1⟩, 100⟩)

def c7s2 : Store :=
  appendEntry c7s1
    (mkStdEntry c7s1 ⟨1, 1⟩ "EUP" 6 "Eingang" "y"
      (entryDate ⟨2024, 3, 1⟩ ⟨⟨2024, 3, 1⟩, 200⟩) ⟨⟨2024, 3, 1⟩, 200⟩)

theorem c7_belegnummer_generation_witness :
    ∃ e1 e2, c7s1.entries = pStore.entries ++ [e1] ∧ c7s2.entries = c7s1.entries ++ [e2] ∧
      e1.belegnummer = String.mk (dateStrL (⟨2024, 3, 1⟩ : Date) ++ ['0', '1']) ∧
      e2.belegnummer = String.mk (dateStrL (⟨2024, 3, 1⟩ : Date) ++ ['0', '2']) ∧
      e1.belegnummer ≠ e2.belegnummer :=
  c7_belegnummer_generation.2 pStore 1 1 "EIN" "EUP" "5" "x" "EIN" "EUP" "6" "y"
    ⟨2024, 3, 1⟩ ⟨2024, 3, 1⟩ ⟨⟨2024, 3, 1⟩, 100⟩ ⟨⟨2024, 3, 1⟩, 200⟩ c7s1 c7s2
    (by rfl) (by rfl) (by rfl) (by rfl)

/-! ## Claim C4 -/

theorem maxSeqIdStep_foldl_mem (l : List Entry) : ∀ (acc : Option Entry) (b : Entry),
    l.foldl maxSeqIdStep acc = some b → acc = some b ∨ b ∈ l := by
  induction l with
  | nil => intro acc b h; exact Or.inl h
  | cons x xs ih =>
    intro acc b h
    rw [List.foldl_cons] at h
    rcases ih _ b h with h2 | h2
    · unfold maxSeqIdStep at h2
      cases acc with
      | none => simp at h2; simp [h2]
      | some a =>
        simp only [] at h2
        by_cases hc :
          (decide (x.konto_seq > a.konto_seq)
            || (x.konto_seq == a.konto_seq && decide (x.id > a.id))) = true
        · rw [if_pos hc] at h2
          simp at h2
          simp [h2]
        · rw [if_neg hc] at h2
          exact Or.inl h2
    · exact Or.inr (List.mem_cons_of_mem _ h2)

theorem findOriginal_mem (s : Store) (pid : Nat) (beleg : String) (o : Entry)
    (h : findOriginal s pid beleg = some o) :
    o ∈ collect_partner_entries s pid ∧ o.belegnummer = beleg ∧
      (o.richtung = "Eingang" ∨ o.richtung = "Ausgang") := by
  unfold findOriginal at h
  rcases maxSeqIdStep_foldl_mem _ none o h with h2 | h2
  · exact absurd h2 (by simp)
  · have hp := List.of_mem_filter h2
    have hm := List.mem_of_mem_filter h2
    simp only [Bool.and_eq_true, Bool.or_eq_true, beq_iff_eq] at hp
    exact ⟨hm, hp.1, hp.2⟩

theorem getMenge_distribute_self (t : String) (v : Int)
    (ht : t = "EUP" ∨ t = "GB" ∨ t = "TMB1" ∨ t = "TMB2") (e : Entry)
    (he : e.menge_eup = (distribute t v).eup ∧ e.menge_gb = (distribute t v).gb ∧
          e.menge_tmb1 = (distribute t v).tmb1 ∧ e.menge_tmb2 = (distribute t v).tmb2) :
    getMenge e t = v := by
  obtain ⟨h1, h2, h3, h4⟩ := he
  rcases ht with rfl | rfl | rfl | rfl <;>
    simp [getMenge, distribute, h1, h2, h3, h4]

/-- C4: after a successful correction against an original of quantity `Q` in
a category, the persisted correction stores the quantity with the reversed
sign of the original's direction, and the multiplier-weighted contribution of
the pair to the running balance of that category is `−Q + C` for an Outbound
original and `+Q − C` for an Inbound one. -/
theorem c4_correction_net_contribution (s : Store) (pid : Nat) (b t m k : String)
    (d : Date) (now : Now) (s' : Store) (o : Entry) (q : Int)
    (h : correction_entry s pid b t m k d now = .ok s')
    (ho : findOriginal s pid b = some o) (hq : parseInt m = some q)
    (ht : t = "EUP" ∨ t = "GB" ∨ t = "TMB1" ∨ t = "TMB2") :
    ∃ e, s' = appendEntry s e ∧ e.richtung = "Korrektur" ∧
      getMenge e t = (if o.richtung = "Ausgang" then q else -q) ∧
      multiplier o.richtung * getMenge o t + multiplier e.richtung * getMenge e t
        = (if o.richtung = "Ausgang" then -(getMenge o t) + q else getMenge o t - q) := by
  obtain ⟨p, a, tl, o', q', hp, ha, hb, hk, ho', hlock, hq', hs⟩ :=
    correction_ok_inv s pid b t m k d now s' h
  rw [ho] at ho'
  obtain rfl : o = o' := Option.some.inj ho'
  rw [hq] at hq'
  obtain rfl : q = q' := Option.some.inj hq'
  have hmg : getMenge (mkCorrEntry s a pid b t (if o.richtung == "Ausgang" then q else -q) k
      (entryDate d now)) t = (if o.richtung == "Ausgang" then q else -q) :=
    getMenge_distribute_self t _ ht _ ⟨rfl, rfl, rfl, rfl⟩
  obtain ⟨-, -, hor⟩ := findOriginal_mem s pid b o ho
  refine ⟨_, hs, rfl, ?_, ?_⟩
  · rw [hmg]
    rcases hor with hin | hout
    · rw [hin]; simp
    · rw [hout]; simp
  · rw [hmg]
    show multiplier o.richtung * getMenge o t + multiplier "Korrektur" * _ = _
    rcases hor with hin | hout
    · rw [hin]
      simp [multiplier]
      ring
    · rw [hout]
      simp [multiplier]

/-- The Outbound original of the C1/C4 example store. -/
def c1Orig : Entry :=
  ⟨2, "2024020501", some (toSec 2024 2 5 10 0 0), "Ausgang", 5, 0, 0, 0, "inv-4471", 0, "Taach", 1⟩

theorem c4_correction_net_contribution_witness :
    ∃ e, appendEntry c1Store c1Corr = appendEntry c1Store e ∧ e.richtung = "Korrektur" ∧
      getMenge e "EUP" = (if c1Orig.richtung = "Ausgang" then 2 else -2) ∧
      multiplier c1Orig.richtung * getMenge c1Orig "EUP"
          + multiplier e.richtung * getMenge e "EUP"
        = (if c1Orig.richtung = "Ausgang" then -(getMenge c1Orig "EUP") + 2
           else getMenge c1Orig "EUP" - 2) :=
  c4_correction_net_contribution c1Store 1 "2024020501" "EUP" "2" "fix" ⟨2024, 1, 15⟩
    ⟨⟨2024, 2, 6⟩, 3600⟩ (appendEntry c1Store c1Corr) c1Orig 2
    (by rfl) (by rfl) (by rfl) (Or.inl rfl)

/-! ## Claim C3 -/

theorem one_le_daysInMonth (y m : Nat) : 1 ≤ daysInMonth y m := by
  unfold daysInMonth
  repeat' split
  all_goals omega

theorem daysBeforeMonth_succ (y m : Nat) (h : 1 ≤ m) :
    daysBeforeMonth y (m + 1) = daysBeforeMonth y m + daysInMonth y m := by
  match m, h with
  | m + 1, _ => rfl

theorem daysBeforeMonth_twelve (y : Nat) :
    daysBeforeMonth y 12
      = 0 + 31 + (if isLeap y then 29 else 28) + 31 + 30 + 31 + 30 + 31 + 31 + 30 + 31 + 30 :=
  rfl

set_option maxHeartbeats 1600000 in
/-- The end of `month_range` is the spec's "final second of that calendar
month": 23:59:59 of its last day. -/
theorem month_range_end_eq (y m : Nat) (hy : 1 ≤ y) (hm1 : 1 ≤ m) (hm2 : m ≤ 12) :
    (month_range y m).2 = specLastSecondOfMonth y m := by
  by_cases h12 : m = 12
  · subst h12
    unfold month_range specLastSecondOfMonth toSec daysBeforeYear
    have hd : daysInMonth y 12 = 31 := rfl
    rw [hd, daysBeforeMonth_twelve]
    simp only [beq_self_eq_true, if_true]
    have hb1 : daysBeforeMonth (y + 1) 1 = 0 := rfl
    rw [hb1]
    by_cases hleap : isLeap y = true
    · rw [if_pos hleap]
      unfold isLeap at hleap
      simp only [Bool.and_eq_true, Bool.or_eq_true, Bool.not_eq_eq_eq_not, Bool.not_true,
        beq_iff_eq, beq_eq_false_iff_ne] at hleap
      obtain ⟨h4, h100⟩ := hleap
      rcases h100 with h100 | h400
      · omega
      · omega
    · rw [if_neg hleap]
      unfold isLeap at hleap
      simp only [Bool.and_eq_true, Bool.or_eq_true, Bool.not_eq_eq_eq_not, Bool.not_true,
        beq_iff_eq, beq_eq_false_iff_ne, not_and, not_or] at hleap
      by_cases h4 : y % 4 = 0
      · obtain ⟨h100, h400⟩ := hleap h4
        omega
      · omega
  · have hlt : m < 12 := by omega
    unfold month_range specLastSecondOfMonth toSec
    have hne : (m == 12) = false := by simp [h12]
    rw [hne]
    simp only [Bool.false_eq_true, if_false]
    rw [daysBeforeMonth_succ y m hm1]
    have := one_le_daysInMonth y m
    omega

theorem c3_close_month (s : Store) (pid y m now : Nat) (p : Partner)
    (hp : findPartner s pid = some p) (hy : 1 ≤ y) (hm1 : 1 ≤ m) (hm2 : m ≤ 12) :
    ((∃ c ∈ s.closures, c.partner_id = pid ∧ c.year = y ∧ c.month = m) →
      close_month s pid y m now = .error .DuplicateClosure) ∧
    ((¬ ∃ c ∈ s.closures, c.partner_id = pid ∧ c.year = y ∧ c.month = m) →
      ∃ r, calculate_saldo_and_sums s pid minDatetime (month_range y m).2 = some r ∧
        close_month s pid y m now = .ok { s with
          closures := s.closures ++ [mkClosure s pid y m r now],
          next_closure_id := s.next_closure_id + 1 } ∧
        (mkClosure s pid y m r now).period_end = (month_range y m).2 ∧
        (month_range y m).2 = specLastSecondOfMonth y m ∧
        (mkClosure s pid y m r now).saldo_eup = r.saldo_end.eup ∧
        (mkClosure s pid y m r now).saldo_gb = r.saldo_end.gb ∧
        (mkClosure s pid y m r now).saldo_tmb1 = r.saldo_end.tmb1 ∧
        (mkClosure s pid y m r now).saldo_tmb2 = r.saldo_end.tmb2) := by
  constructor
  · intro hdup
    have hany : s.closures.any (fun c => c.partner_id == pid && c.year == y && c.month == m)
        = true := by
      rw [List.any_eq_true]
      obtain ⟨c, hc, h1, h2, h3⟩ := hdup
      exact ⟨c, hc, by simp [h1, h2, h3]⟩
    unfold close_month
    rw [hp, hany]
    simp
  · intro hdup
    have hany : s.closures.any (fun c => c.partner_id == pid && c.year == y && c.month == m)
        = false := by
      rw [List.any_eq_false]
      intro c hc hcontra
      simp only [Bool.and_eq_true, beq_iff_eq] at hcontra
      exact hdup ⟨c, hc, hcontra.1.1, hcontra.1.2, hcontra.2⟩
    obtain ⟨r, hr⟩ := calc_isSome s pid minDatetime (month_range y m).2 p hp
    refine ⟨r, hr, ?_, rfl, month_range_end_eq y m hy hm1 hm2, rfl, rfl, rfl, rfl⟩
    unfold close_month
    rw [hp, hany, hr]
    simp

theorem c3_close_month_witness :
    ∃ r, calculate_saldo_and_sums pStore 1 minDatetime (month_range 2024 1).2 = some r ∧
      close_month pStore 1 2024 1 5 = .ok { pStore with
        closures := pStore.closures ++ [mkClosure pStore 1 2024 1 r 5],
        next_closure_id := pStore.next_closure_id + 1 } ∧
      (mkClosure pStore 1 2024 1 r 5).period_end = (month_range 2024 1).2 ∧
      (month_range 2024 1).2 = specLastSecondOfMonth 2024 1 ∧
      (mkClosure pStore 1 2024 1 r 5).saldo_eup = r.saldo_end.eup ∧
      (mkClosure pStore 1 2024 1 r 5).saldo_gb = r.saldo_end.gb ∧
      (mkClosure pStore 1 2024 1 r 5).saldo_tmb1 = r.saldo_end.tmb1 ∧
      (mkClosure pStore 1 2024 1 r 5).saldo_tmb2 = r.saldo_end.tmb2 :=
  (c3_close_month pStore 1 2024 1 5 ⟨1, "A"⟩ (by rfl) (by decide) (by decide) (by decide)).2
    (by decide)

/-! ## Claim C6: decimal rendering facts -/

theorem charVal_digitChar (k : Nat) (h : k < 10) : charVal (Nat.digitChar k) = k := by
  interval_cases k <;> rfl

theorem valOf_append_one (l : List Char) (c : Char) :
    valOf (l ++ [c]) = valOf l * 10 + charVal c := by
  unfold valOf
  rw [List.foldl_append]
  rfl

theorem valOf_decDigitsAux (fuel : Nat) : ∀ n, n < fuel → valOf (decDigitsAux fuel n) = n := by
  induction fuel with
  | zero => intro n h; omega
  | succ fuel ih =>
    intro n h
    unfold decDigitsAux
    by_cases h10 : n < 10
    · rw [if_pos h10]
      show valOf ([] ++ [Nat.digitChar n]) = n
      rw [valOf_append_one, charVal_digitChar n h10]
      show 0 * 10 + n = n
      omega
    · rw [if_neg h10]
      rw [valOf_append_one, ih (n / 10) (by omega), charVal_digitChar (n % 10) (by omega)]
      omega

theorem valOf_decDigits (n : Nat) : valOf (decDigits n) = n :=
  valOf_decDigitsAux (n + 1) n (by omega)

theorem valOf_replicate_zero (l : List Char) (k : Nat) :
    valOf (List.replicate k '0' ++ l) = valOf l := by
  induction k with
  | zero => rfl
  | succ k ih =>
    rw [List.replicate_succ, List.cons_append]
    show valOf (List.replicate k '0' ++ l) = valOf l
    exact ih

theorem valOf_padL (w n : Nat) : valOf (padL w n) = n := by
  unfold padL
  rw [valOf_replicate_zero, valOf_decDigits]

theorem padL_inj (w a b : Nat) (h : padL w a = padL w b) : a = b := by
  have := congrArg valOf h
  rwa [valOf_padL, valOf_padL] at this

theorem length_decDigitsAux (fuel : Nat) : ∀ n k, n < fuel → n < 10 ^ k → 1 ≤ k →
    (decDigitsAux fuel n).length ≤ k := by
  induction fuel with
  | zero => intro n k h; omega
  | succ fuel ih =>
    intro n k h hk h1
    unfold decDigitsAux
    by_cases h10 : n < 10
    · rw [if_pos h10]; simpa using h1
    · rw [if_neg h10]
      have hk2 : 2 ≤ k := by
        rcases Nat.lt_or_ge k 2 with hlt | hge
        · interval_cases k
          all_goals omega
        · exact hge
      have hdiv : n / 10 < 10 ^ (k - 1) := by
        rw [Nat.div_lt_iff_lt_mul (by omega)]
        calc n < 10 ^ k := hk
        _ = 10 ^ (k - 1) * 10 := by
              rw [← Nat.pow_succ]
              congr 1
              omega
      have := ih (n / 10) (k - 1) (by omega) hdiv (by omega)
      rw [List.length_append]
      simp only [List.length_cons, List.length_nil]
      omega

theorem length_padL (w n : Nat) (hn : n < 10 ^ w) (hw : 1 ≤ w) : (padL w n).length = w := by
  unfold padL
  have : (decDigits n).length ≤ w :=
    length_decDigitsAux (n + 1) n w (by omega) hn hw
  rw [List.length_append, List.length_replicate]
  omega

/-- Clock values that the real `datetime.now()` can produce render their
`%Y%m%d` date as exactly eight characters. -/
def validNow (now : Now) : Prop :=
  now.date.year ≤ 9999 ∧ now.date.month ≤ 99 ∧ now.date.day ≤ 99

theorem length_dateStrL (dt : Date) (hy : dt.year ≤ 9999) (hm : dt.month ≤ 99)
    (hd : dt.day ≤ 99) : (dateStrL dt).length = 8 := by
  unfold dateStrL
  rw [List.length_append, List.length_append,
    length_padL 4 dt.year (by omega) (by omega),
    length_padL 2 dt.month (by omega) (by omega),
    length_padL 2 dt.day (by omega) (by omega)]

/-! ## Claim C6: store manipulation facts -/

theorem collect_sub (s : Store) (pid : Nat) (e : Entry)
    (h : e ∈ collect_partner_entries s pid) : e ∈ s.entries := by
  unfold collect_partner_entries at h
  rw [List.mem_flatMap] at h
  obtain ⟨a, -, he⟩ := h
  exact List.mem_of_mem_filter he

theorem flatMap_congr_entries (l : List Account) (f g : Account → List Entry)
    (h : ∀ a ∈ l, f a = g a) : l.flatMap f = l.flatMap g := by
  induction l with
  | nil => rfl
  | cons x xs ih =>
    rw [List.flatMap_cons, List.flatMap_cons, h x (by simp), ih (fun a ha => h a (by simp [ha]))]

theorem accountsOf_appendEntry (s : Store) (e : Entry) (pid : Nat) :
    accountsOf (appendEntry s e) pid = accountsOf s pid := rfl

theorem entriesFor_appendEntry (s : Store) (e : Entry) (aid : Nat) :
    entriesFor (appendEntry s e) aid
      = entriesFor s aid ++ (if e.account_id == aid then [e] else []) := by
  unfold entriesFor appendEntry
  rw [List.filter_append]
  simp only [List.filter]
  cases hb : e.account_id == aid <;> simp_all

theorem collect_appendEntry_self (s : Store) (e : Entry) (pid : Nat) (a : Account)
    (ha : accountsOf s pid = [a]) (he : e.account_id = a.id) :
    collect_partner_entries (appendEntry s e) pid = collect_partner_entries s pid ++ [e] := by
  unfold collect_partner_entries
  rw [accountsOf_appendEntry, ha]
  rw [List.flatMap_cons, List.flatMap_cons, List.flatMap_nil, List.flatMap_nil,
    entriesFor_appendEntry]
  simp [he]

theorem collect_appendEntry_other (s : Store) (e : Entry) (pid : Nat)
    (h : ∀ a ∈ accountsOf s pid, e.account_id ≠ a.id) :
    collect_partner_entries (appendEntry s e) pid = collect_partner_entries s pid := by
  unfold collect_partner_entries
  rw [accountsOf_appendEntry]
  apply flatMap_congr_entries
  intro a ha
  rw [entriesFor_appendEntry]
  have : (e.account_id == a.id) = false := by simp [h a ha]
  rw [this]
  simp

/-- The konto_seq list of a belegnummer group, in store (creation) order. -/
def seqMap (s : Store) (pid : Nat) (beleg : String) : List Nat :=
  (belegGroup s pid beleg).map (fun e => e.konto_seq)

theorem belegGroup_appendEntry_self (s : Store) (e : Entry) (pid : Nat) (a : Account)
    (ha : accountsOf s pid = [a]) (he : e.account_id = a.id) (beleg : String) :
    belegGroup (appendEntry s e) pid beleg
      = belegGroup s pid beleg ++ (if e.belegnummer == beleg then [e] else []) := by
  unfold belegGroup
  rw [collect_appendEntry_self s e pid a ha he, List.filter_append]
  simp only [List.filter]
  cases hb : e.belegnummer == beleg <;> simp_all

theorem belegGroup_appendEntry_other (s : Store) (e : Entry) (pid : Nat)
    (h : ∀ a ∈ accountsOf s pid, e.account_id ≠ a.id) (beleg : String) :
    belegGroup (appendEntry s e) pid beleg = belegGroup s pid beleg := by
  unfold belegGroup
  rw [collect_appendEntry_other s e pid h]

/-! ## Claim C6: maximum sequence number facts -/

theorem maxSeqStep_foldl_max (l : List Entry) : ∀ b0 : Entry,
    ∃ b, l.foldl maxSeqStep (some b0) = some b ∧ (b = b0 ∨ b ∈ l) ∧
      b0.konto_seq ≤ b.konto_seq ∧ ∀ e ∈ l, e.konto_seq ≤ b.konto_seq := by
  induction l with
  | nil => intro b0; exact ⟨b0, rfl, Or.inl rfl, Nat.le_refl _, by simp⟩
  | cons x xs ih =>
    intro b0
    rw [List.foldl_cons]
    by_cases hc : x.konto_seq > b0.konto_seq
    · have hstep : maxSeqStep (some b0) x = some x := by
        unfold maxSeqStep; simp [hc]
      rw [hstep]
      obtain ⟨b, hb1, hb2, hb3, hb4⟩ := ih x
      refine ⟨b, hb1, ?_, by omega, ?_⟩
      · rcases hb2 with rfl | hb2
        · exact Or.inr (by simp)
        · exact Or.inr (by simp [hb2])
      · intro e hee
        rcases List.mem_cons.mp hee with rfl | hee
        · omega
        · exact hb4 e hee
    · have hstep : maxSeqStep (some b0) x = some b0 := by
        unfold maxSeqStep; simp [hc]
      rw [hstep]
      obtain ⟨b, hb1, hb2, hb3, hb4⟩ := ih b0
      refine ⟨b, hb1, ?_, hb3, ?_⟩
      · rcases hb2 with rfl | hb2
        · exact Or.inl rfl
        · exact Or.inr (by simp [hb2])
      · intro e hee
        rcases List.mem_cons.mp hee with rfl | hee
        · omega
        · exact hb4 e hee

theorem pickMaxSeq_spec (l : List Entry) (hne : l ≠ []) :
    ∃ b, pickMaxSeq l = some b ∧ b ∈ l ∧ ∀ e ∈ l, e.konto_seq ≤ b.konto_seq := by
  cases l with
  | nil => exact absurd rfl hne
  | cons x xs =>
    unfold pickMaxSeq
    rw [List.foldl_cons]
    have hstep : maxSeqStep none x = some x := rfl
    rw [hstep]
    obtain ⟨b, hb1, hb2, hb3, hb4⟩ := maxSeqStep_foldl_max xs x
    refine ⟨b, hb1, ?_, ?_⟩
    · rcases hb2 with rfl | hb2
      · simp
      · simp [hb2]
    · intro e hee
      rcases List.mem_cons.mp hee with rfl | hee
      · omega
      · exact hb4 e hee

theorem nextSeq_of_range (s : Store) (pid : Nat) (beleg : String) (n : Nat) (hn : 1 ≤ n)
    (hsm : seqMap s pid beleg = List.range n) : nextSeq s pid beleg = n := by
  have hne : belegGroup s pid beleg ≠ [] := by
    intro hnil
    rw [seqMap, hnil] at hsm
    have := congrArg List.length hsm
    simp at this
    omega
  obtain ⟨b, hb1, hb2, hb3⟩ := pickMaxSeq_spec (belegGroup s pid beleg) hne
  have hblt : b.konto_seq < n := by
    have : b.konto_seq ∈ seqMap s pid beleg := List.mem_map_of_mem _ hb2
    rw [hsm, List.mem_range] at this
    exact this
  have hge : n - 1 ≤ b.konto_seq := by
    have hmem : n - 1 ∈ seqMap s pid beleg := by
      rw [hsm, List.mem_range]; omega
    rw [seqMap, List.mem_map] at hmem
    obtain ⟨e, he1, he2⟩ := hmem
    rw [← he2]
    exact hb3 e he1
  unfold nextSeq
  rw [hb1]
  show b.konto_seq + 1 = n
  omega

/-! ## Claim C6: reachable stores and their invariant -/

/-- States reachable from the empty database through all of the
application's write paths (`new_partner`, `new_entry`, `correction_entry`,
`close_month`, `delete_partner`), with the clock constrained to values
`datetime.now()` can produce. -/
inductive Reach : Store → Prop where
  | init : Reach Store.empty
  | partner (s : Store) (name : String) (s' : Store) :
      Reach s → new_partner s name = .ok s' → Reach s'
  | entry (s : Store) (pid : Nat) (r t m k : String) (d : Date) (now : Now) (s' : Store) :
      Reach s → validNow now → new_entry s pid r t m k d now = .ok s' → Reach s'
  | corr (s : Store) (pid : Nat) (b t m k : String) (d : Date) (now : Now) (s' : Store) :
      Reach s → correction_entry s pid b t m k d now = .ok s' → Reach s'
  | close (s : Store) (pid y mo now : Nat) (s' : Store) :
      Reach s → close_month s pid y mo now = .ok s' → Reach s'
  | delete (s : Store) (pid : Nat) (s' : Store) :
      Reach s → delete_partner s pid = .ok s' → Reach s'

/-- States reachable when the partner-deletion path is never taken: only
`new_partner`, `new_entry`, `correction_entry` and `close_month` run.
Deleting a partner shrinks the global belegnummer prefix count and can make
`new_entry` reuse a surviving partner's belegnummer, so the konto_seq
invariant below holds only on this deletion-free fragment. -/
inductive ReachNoDelete : Store → Prop where
  | init : ReachNoDelete Store.empty
  | partner (s : Store) (name : String) (s' : Store) :
      ReachNoDelete s → new_partner s name = .ok s' → ReachNoDelete s'
  | entry (s : Store) (pid : Nat) (r t m k : String) (d : Date) (now : Now) (s' : Store) :
      ReachNoDelete s → validNow now → new_entry s pid r t m k d now = .ok s' →
      ReachNoDelete s'
  | corr (s : Store) (pid : Nat) (b t m k : String) (d : Date) (now : Now) (s' : Store) :
      ReachNoDelete s → correction_entry s pid b t m k d now = .ok s' → ReachNoDelete s'
  | close (s : Store) (pid y mo now : Nat) (s' : Store) :
      ReachNoDelete s → close_month s pid y mo now = .ok s' → ReachNoDelete s'

/-- Inductive invariant of reachable stores: id discipline, one account per
partner, every belegnummer of the canonical `date ++ 2-digit` shape with its
suffix bounded by the prefix count, and every belegnummer group's konto_seq
list equal to `0, 1, 2, ...` in creation order. -/
structure StoreInv (s : Store) : Prop where
  pid_lt : ∀ p ∈ s.partners, p.id < s.next_partner_id
  aid_lt : ∀ a ∈ s.accounts, a.id < s.next_account_id
  apid_lt : ∀ a ∈ s.accounts, a.partner_id < s.next_partner_id
  eacc_lt : ∀ e ∈ s.entries, e.account_id < s.next_account_id
  aid_inj : ∀ a1 ∈ s.accounts, ∀ a2 ∈ s.accounts, a1.id = a2.id → a1 = a2
  one_acct : ∀ p ∈ s.partners, ∃ a, accountsOf s p.id = [a]
  beleg_form : ∀ e ∈ s.entries, ∃ pre j, pre.length = 8 ∧ 1 ≤ j ∧
    j ≤ prefixCount s pre ∧ e.belegnummer = String.mk (pre ++ pad2L j)
  groups : ∀ pid beleg, seqMap s pid beleg = List.range (seqMap s pid beleg).length

theorem findPartner_mem (s : Store) (pid : Nat) (p : Partner)
    (h : findPartner s pid = some p) : p ∈ s.partners ∧ p.id = pid := by
  unfold findPartner at h
  refine ⟨List.mem_of_find?_eq_some h, ?_⟩
  have := List.find?_some h
  simpa using this

theorem accountsOf_head_mem (s : Store) (pid : Nat) (a : Account) (tl : List Account)
    (h : accountsOf s pid = a :: tl) : a ∈ s.accounts ∧ a.partner_id = pid := by
  have hmem : a ∈ accountsOf s pid := by rw [h]; simp
  unfold accountsOf at hmem
  refine ⟨List.mem_of_mem_filter hmem, ?_⟩
  have := List.of_mem_filter hmem
  simpa using this

theorem inv_empty : StoreInv Store.empty := by
  refine ⟨?_, ?_, ?_, ?_, ?_, ?_, ?_, fun pid beleg => rfl⟩ <;> simp [Store.empty]

theorem new_partner_ok_inv (s : Store) (name : String) (s' : Store)
    (h : new_partner s name = .ok s') :
    s' = { s with
      partners := s.partners ++ [{ id := s.next_partner_id, name := name }],
      accounts := s.accounts ++ [{ id := s.next_account_id, partner_id := s.next_partner_id }],
      next_partner_id := s.next_partner_id + 1,
      next_account_id := s.next_account_id + 1 } := by
  unfold new_partner at h
  split at h
  next => exact absurd h (by simp)
  next =>
    simp only [Except.ok.injEq] at h
    exact h.symm

theorem inv_new_partner (s : Store) (name : String) (s' : Store) (hinv : StoreInv s)
    (h : new_partner s name = .ok s') : StoreInv s' := by
  obtain rfl := new_partner_ok_inv s name s' h
  constructor
  · intro p hp
    rcases List.mem_append.mp hp with hp | hp
    · exact Nat.lt_succ_of_lt (hinv.pid_lt p hp)
    · simp at hp; rw [hp]
      show s.next_partner_id < s.next_partner_id + 1
      omega
  · intro a ha
    rcases List.mem_append.mp ha with ha | ha
    · exact Nat.lt_succ_of_lt (hinv.aid_lt a ha)
    · simp at ha; rw [ha]
      show s.next_account_id < s.next_account_id + 1
      omega
  · intro a ha
    rcases List.mem_append.mp ha with ha | ha
    · exact Nat.lt_succ_of_lt (hinv.apid_lt a ha)
    · simp at ha; rw [ha]
      show s.next_partner_id < s.next_partner_id + 1
      omega
  · intro e he
    exact Nat.lt_succ_of_lt (hinv.eacc_lt e he)
  · intro a1 h1 a2 h2 heq
    rcases List.mem_append.mp h1 with h1 | h1 <;> rcases List.mem_append.mp h2 with h2 | h2
    · exact hinv.aid_inj a1 h1 a2 h2 heq
    · simp at h2
      have := hinv.aid_lt a1 h1
      rw [h2] at heq
      simp at heq
      omega
    · simp at h1
      have := hinv.aid_lt a2 h2
      rw [h1] at heq
      simp at heq
      omega
    · simp at h1 h2; rw [h1, h2]
  · intro p hp
    rcases List.mem_append.mp hp with hp | hp
    · obtain ⟨a, ha⟩ := hinv.one_acct p hp
      refine ⟨a, ?_⟩
      show (s.accounts ++ [(⟨s.next_account_id, s.next_partner_id⟩ : Account)]).filter
        (fun x => x.partner_id == p.id) = [a]
      rw [List.filter_append]
      have hno : ([(⟨s.next_account_id, s.next_partner_id⟩ : Account)].filter
          (fun x => x.partner_id == p.id)) = [] := by
        have := hinv.pid_lt p hp
        simp
        omega
      rw [hno, List.append_nil]
      exact ha
    · simp at hp
      refine ⟨⟨s.next_account_id, s.next_partner_id⟩, ?_⟩
      rw [hp]
      show (s.accounts ++ [(⟨s.next_account_id, s.next_partner_id⟩ : Account)]).filter
        (fun x => x.partner_id == s.next_partner_id) = _
      rw [List.filter_append]
      have hold : (s.accounts.filter (fun x => x.partner_id == s.next_partner_id)) = [] := by
        rw [List.filter_eq_nil_iff]
        intro a ha
        have := hinv.apid_lt a ha
        simp
        omega
      rw [hold]
      simp
  · intro e he
    obtain ⟨pre, j, h1, h2, h3, h4⟩ := hinv.beleg_form e he
    exact ⟨pre, j, h1, h2, h3, h4⟩
  · intro pid beleg
    by_cases hpid : pid = s.next_partner_id
    · have hacc : accountsOf { s with
          partners := s.partners ++ [{ id := s.next_partner_id, name := name }],
          accounts := s.accounts ++ [⟨s.next_account_id, s.next_partner_id⟩],
          next_partner_id := s.next_partner_id + 1,
          next_account_id := s.next_account_id + 1 } pid
          = [⟨s.next_account_id, s.next_partner_id⟩] := by
        show (s.accounts ++ [(⟨s.next_account_id, s.next_partner_id⟩ : Account)]).filter
          (fun x => x.partner_id == pid) = _
        rw [List.filter_append]
        have hold : (s.accounts.filter (fun x => x.partner_id == pid)) = [] := by
          rw [List.filter_eq_nil_iff]
          intro a ha
          have := hinv.apid_lt a ha
          simp
          omega
        rw [hold, hpid]
        simp
      have hcoll : collect_partner_entries { s with
          partners := s.partners ++ [{ id := s.next_partner_id, name := name }],
          accounts := s.accounts ++ [⟨s.next_account_id, s.next_partner_id⟩],
          next_partner_id := s.next_partner_id + 1,
          next_account_id := s.next_account_id + 1 } pid = [] := by
        unfold collect_partner_entries
        rw [hacc]
        simp only [List.flatMap_cons, List.flatMap_nil, List.append_nil]
        show s.entries.filter (fun e => e.account_id == s.next_account_id) = []
        rw [List.filter_eq_nil_iff]
        intro e he
        have := hinv.eacc_lt e he
        simp
        omega
      unfold seqMap belegGroup
      rw [hcoll]
      rfl
    · have hacc : accountsOf { s with
          partners := s.partners ++ [{ id := s.next_partner_id, name := name }],
          accounts := s.accounts ++ [⟨s.next_account_id, s.next_partner_id⟩],
          next_partner_id := s.next_partner_id + 1,
          next_account_id := s.next_account_id + 1 } pid
          = accountsOf s pid := by
        show (s.accounts ++ [(⟨s.next_account_id, s.next_partner_id⟩ : Account)]).filter
          (fun x => x.partner_id == pid) = _
        rw [List.filter_append]
        have hno : ([(⟨s.next_account_id, s.next_partner_id⟩ : Account)].filter
            (fun x => x.partner_id == pid)) = [] := by
          simp
          omega
        rw [hno, List.append_nil]
        rfl
      unfold seqMap belegGroup collect_partner_entries
      rw [hacc]
      exact hinv.groups pid beleg

theorem prefixCount_le_appendEntry (s : Store) (e : Entry) (pre : List Char) :
    prefixCount s pre ≤ prefixCount (appendEntry s e) pre := by
  rw [prefixCount_appendEntry]
  split <;> omega

theorem inv_new_entry (s : Store) (pid : Nat) (r t m k : String) (d : Date) (now : Now)
    (s' : Store) (hinv : StoreInv s) (hvn : validNow now)
    (h : new_entry s pid r t m k d now = .ok s') : StoreInv s' := by
  obtain ⟨p, a, tl, q, rdb, hp, ha, hl, hq, hr, hcom, rfl⟩ :=
    new_entry_ok_inv s pid r t m k d now s' h
  obtain ⟨hpmem, hpid⟩ := findPartner_mem s pid p hp
  obtain ⟨hamem, hapid⟩ := accountsOf_head_mem s pid a tl ha
  obtain ⟨a0, ha0⟩ := hinv.one_acct p hpmem
  rw [hpid, ha] at ha0
  obtain ⟨rfl, rfl⟩ : a = a0 ∧ tl = [] := by
    have := List.cons.injEq a tl a0 []
    rw [this] at ha0
    exact ha0
  have hlenP : (dateStrL now.date).length = 8 :=
    length_dateStrL now.date hvn.1 hvn.2.1 hvn.2.2
  have hfresh : ∀ pid2,
      belegGroup s pid2 (String.mk (dateStrL now.date
        ++ pad2L (prefixCount s (dateStrL now.date) + 1))) = [] := by
    intro pid2
    rw [List.eq_nil_iff_forall_not_mem]
    intro e0 he0
    unfold belegGroup at he0
    have he0c := List.mem_of_mem_filter he0
    have he0p := List.of_mem_filter he0
    simp only [beq_iff_eq] at he0p
    have he0s := collect_sub s pid2 e0 he0c
    obtain ⟨pre0, j0, hl0, hj0, hjc0, hbf0⟩ := hinv.beleg_form e0 he0s
    have hmk : String.mk (pre0 ++ pad2L j0)
        = String.mk (dateStrL now.date ++ pad2L (prefixCount s (dateStrL now.date) + 1)) :=
      hbf0.symm.trans he0p
    have hdata : pre0 ++ pad2L j0
        = dateStrL now.date ++ pad2L (prefixCount s (dateStrL now.date) + 1) :=
      congrArg String.data hmk
    obtain ⟨hpre, hpad⟩ := List.append_inj hdata (by rw [hl0, hlenP])
    have hj0eq := padL_inj 2 j0 (prefixCount s (dateStrL now.date) + 1) hpad
    rw [hpre] at hjc0
    omega
  constructor
  · exact fun p2 hp2 => hinv.pid_lt p2 hp2
  · exact fun a2 ha2 => hinv.aid_lt a2 ha2
  · exact fun a2 ha2 => hinv.apid_lt a2 ha2
  · intro e he
    rcases List.mem_append.mp he with he | he
    · exact hinv.eacc_lt e he
    · simp at he; rw [he]
      show a.id < s.next_account_id
      exact hinv.aid_lt a hamem
  · exact fun a1 h1 a2 h2 heq => hinv.aid_inj a1 h1 a2 h2 heq
  · intro p2 hp2
    obtain ⟨a2, ha2⟩ := hinv.one_acct p2 hp2
    exact ⟨a2, ha2⟩
  · intro e he
    rcases List.mem_append.mp he with he | he
    · obtain ⟨pre0, j0, h1, h2, h3, h4⟩ := hinv.beleg_form e he
      refine ⟨pre0, j0, h1, h2, ?_, h4⟩
      have := prefixCount_le_appendEntry s
        (mkStdEntry s a t q rdb k (entryDate d now) now) pre0
      omega
    · simp at he; rw [he]
      refine ⟨dateStrL now.date, prefixCount s (dateStrL now.date) + 1, hlenP,
        by omega, ?_, rfl⟩
      rw [prefixCount_appendEntry]
      have hself : isPre (dateStrL now.date)
          (mkStdEntry s a t q rdb k (entryDate d now) now).belegnummer.data = true := by
        show isPre (dateStrL now.date)
          (dateStrL now.date ++ pad2L (prefixCount s (dateStrL now.date) + 1)) = true
        exact isPre_append_self _ _
      rw [hself]
      simp
  · intro pid2 beleg2
    by_cases hpid2 : pid2 = pid
    · subst hpid2
      have hga := belegGroup_appendEntry_self s
        (mkStdEntry s a t q rdb k (entryDate d now) now) pid2 a ha rfl beleg2
      by_cases hb2 :
          ((mkStdEntry s a t q rdb k (entryDate d now) now).belegnummer == beleg2) = true
      · have hb2e : (mkStdEntry s a t q rdb k (entryDate d now) now).belegnummer = beleg2 := by
          simpa using hb2
        have hold : belegGroup s pid2 beleg2 = [] := by
          rw [← hb2e]
          exact hfresh pid2
        unfold seqMap
        rw [hga, hold, if_pos hb2]
        rfl
      · unfold seqMap
        rw [hga, if_neg hb2, List.append_nil]
        exact hinv.groups pid2 beleg2
    · have hother : ∀ a' ∈ accountsOf s pid2,
          (mkStdEntry s a t q rdb k (entryDate d now) now).account_id ≠ a'.id := by
        intro a' ha' hcontra
        have ha'mem : a' ∈ s.accounts := List.mem_of_mem_filter ha'
        have ha'pid : a'.partner_id = pid2 := by
          have := List.of_mem_filter ha'
          simpa using this
        have haa : a = a' := hinv.aid_inj a hamem a' ha'mem hcontra
        rw [← haa] at ha'pid
        rw [hapid] at ha'pid
        exact hpid2 ha'pid.symm
      have hga := belegGroup_appendEntry_other s
        (mkStdEntry s a t q rdb k (entryDate d now) now) pid2 hother beleg2
      unfold seqMap
      rw [hga]
      exact hinv.groups pid2 beleg2

theorem range_snoc (l : List Nat) (h : l = List.range l.length) :
    l ++ [l.length] = List.range ((l ++ [l.length]).length) := by
  have hlen : (l ++ [l.length]).length = l.length + 1 := by simp
  rw [hlen, List.range_succ, ← h]

theorem inv_correction (s : Store) (pid : Nat) (b t m k : String) (d : Date) (now : Now)
    (s' : Store) (hinv : StoreInv s)
    (h : correction_entry s pid b t m k d now = .ok s') : StoreInv s' := by
  obtain ⟨p, a, tl, o, q, hp, ha, hbne, hkne, ho, hlock, hq, rfl⟩ :=
    correction_ok_inv s pid b t m k d now s' h
  obtain ⟨hpmem, hpid⟩ := findPartner_mem s pid p hp
  obtain ⟨hamem, hapid⟩ := accountsOf_head_mem s pid a tl ha
  obtain ⟨a0, ha0⟩ := hinv.one_acct p hpmem
  rw [hpid, ha] at ha0
  obtain ⟨rfl, rfl⟩ : a = a0 ∧ tl = [] := by
    have := List.cons.injEq a tl a0 []
    rw [this] at ha0
    exact ha0
  obtain ⟨hocoll, hobeleg, hodir⟩ := findOriginal_mem s pid b o ho
  have hogrp : o ∈ belegGroup s pid b :=
    List.mem_filter.mpr ⟨hocoll, by simp [hobeleg]⟩
  have hlen1 : 1 ≤ (seqMap s pid b).length := by
    unfold seqMap
    rw [List.length_map]
    have := List.length_pos.mpr (List.ne_nil_of_mem hogrp)
    omega
  have hrange := hinv.groups pid b
  have hnn := nextSeq_of_range s pid b (seqMap s pid b).length hlen1 hrange
  constructor
  · exact fun p2 hp2 => hinv.pid_lt p2 hp2
  · exact fun a2 ha2 => hinv.aid_lt a2 ha2
  · exact fun a2 ha2 => hinv.apid_lt a2 ha2
  · intro e he
    rcases List.mem_append.mp he with he | he
    · exact hinv.eacc_lt e he
    · simp at he; rw [he]
      show a.id < s.next_account_id
      exact hinv.aid_lt a hamem
  · exact fun a1 h1 a2 h2 heq => hinv.aid_inj a1 h1 a2 h2 heq
  · intro p2 hp2
    obtain ⟨a2, ha2⟩ := hinv.one_acct p2 hp2
    exact ⟨a2, ha2⟩
  · intro e he
    rcases List.mem_append.mp he with he | he
    · obtain ⟨pre0, j0, h1, h2, h3, h4⟩ := hinv.beleg_form e he
      refine ⟨pre0, j0, h1, h2, ?_, h4⟩
      have := prefixCount_le_appendEntry s
        (mkCorrEntry s a pid b t (if o.richtung == "Ausgang" then q else -q) k
          (entryDate d now)) pre0
      omega
    · simp at he; rw [he]
      obtain ⟨pre0, j0, h1, h2, h3, h4⟩ := hinv.beleg_form o (collect_sub s pid o hocoll)
      refine ⟨pre0, j0, h1, h2, ?_, ?_⟩
      · have := prefixCount_le_appendEntry s
          (mkCorrEntry s a pid b t (if o.richtung == "Ausgang" then q else -q) k
            (entryDate d now)) pre0
        omega
      · show b = String.mk (pre0 ++ pad2L j0)
        rw [← hobeleg]
        exact h4
  · intro pid2 beleg2
    by_cases hpid2 : pid2 = pid
    · subst hpid2
      have hga := belegGroup_appendEntry_self s
        (mkCorrEntry s a pid2 b t (if o.richtung == "Ausgang" then q else -q) k
          (entryDate d now)) pid2 a ha rfl beleg2
      by_cases hb2 :
          ((mkCorrEntry s a pid2 b t (if o.richtung == "Ausgang" then q else -q) k
            (entryDate d now)).belegnummer == beleg2) = true
      · have hb2e : b = beleg2 := by simpa using hb2
        subst hb2e
        unfold seqMap
        rw [hga, if_pos hb2, List.map_append]
        have hmap1 : List.map (fun e => e.konto_seq)
            [mkCorrEntry s a pid2 b t (if o.richtung == "Ausgang" then q else -q) k
              (entryDate d now)] = [nextSeq s pid2 b] := rfl
        have hms : List.map (fun e => e.konto_seq) (belegGroup s pid2 b)
            = seqMap s pid2 b := rfl
        rw [hmap1, hms, hnn]
        exact range_snoc (seqMap s pid2 b) hrange
      · unfold seqMap
        rw [hga, if_neg hb2, List.append_nil]
        exact hinv.groups pid2 beleg2
    · have hother : ∀ a' ∈ accountsOf s pid2,
          (mkCorrEntry s a pid b t (if o.richtung == "Ausgang" then q else -q) k
            (entryDate d now)).account_id ≠ a'.id := by
        intro a' ha' hcontra
        have ha'mem : a' ∈ s.accounts := List.mem_of_mem_filter ha'
        have ha'pid : a'.partner_id = pid2 := by
          have := List.of_mem_filter ha'
          simpa using this
        have haa : a = a' := hinv.aid_inj a hamem a' ha'mem hcontra
        rw [← haa] at ha'pid
        rw [hapid] at ha'pid
        exact hpid2 ha'pid.symm
      have hga := belegGroup_appendEntry_other s
        (mkCorrEntry s a pid b t (if o.richtung == "Ausgang" then q else -q) k
          (entryDate d now)) pid2 hother beleg2
      unfold seqMap
      rw [hga]
      exact hinv.groups pid2 beleg2

theorem close_month_ok_inv (s : Store) (pid y mo now : Nat) (s' : Store)
    (h : close_month s pid y mo now = .ok s') :
    ∃ r, s' = { s with
      closures := s.closures ++ [mkClosure s pid y mo r now],
      next_closure_id := s.next_closure_id + 1 } := by
  unfold close_month at h
  split at h
  next => exact absurd h (by simp)
  next =>
  split at h
  next => exact absurd h (by simp)
  next =>
  split at h
  next => exact absurd h (by simp)
  next r hr =>
  simp only [Except.ok.injEq] at h
  exact ⟨r, h.symm⟩

theorem inv_close (s : Store) (pid y mo now : Nat) (s' : Store) (hinv : StoreInv s)
    (h : close_month s pid y mo now = .ok s') : StoreInv s' := by
  obtain ⟨r, rfl⟩ := close_month_ok_inv s pid y mo now s' h
  exact ⟨fun p2 hp2 => hinv.pid_lt p2 hp2,
    fun a2 ha2 => hinv.aid_lt a2 ha2,
    fun a2 ha2 => hinv.apid_lt a2 ha2,
    fun e he => hinv.eacc_lt e he,
    fun a1 h1 a2 h2 heq => hinv.aid_inj a1 h1 a2 h2 heq,
    fun p2 hp2 => hinv.one_acct p2 hp2,
    fun e he => hinv.beleg_form e he,
    fun pid2 beleg2 => hinv.groups pid2 beleg2⟩

theorem reach_inv (s : Store) (h : ReachNoDelete s) : StoreInv s := by
  induction h with
  | init => exact inv_empty
  | partner s name s' hr hok ih => exact inv_new_partner s name s' ih hok
  | entry s pid r t m k d now s' hr hvn hok ih =>
    exact inv_new_entry s pid r t m k d now s' ih hvn hok
  | corr s pid b t m k d now s' hr hok ih =>
    exact inv_correction s pid b t m k d now s' ih hok
  | close s pid y mo now s' hr hok ih => exact inv_close s pid y mo now s' ih hok

/-- Largest konto_seq occurring in a list of entries (0 when empty). -/
def maxSeqOf (l : List Entry) : Nat := (l.map (fun e => e.konto_seq)).foldr max 0

theorem foldr_max_range_aux (n : Nat) : ∀ a, (List.range n).foldr max a = max a (n - 1) := by
  induction n with
  | zero => intro a; simp
  | succ n ih =>
    intro a
    rw [List.range_succ, List.foldr_append]
    show (List.range n).foldr max (max n a) = _
    rw [ih (max n a)]
    omega

/-- C6 amended: in every store reachable while the partner-deletion path is
never taken, each belegnummer group's konto_seq list equals
`0, 1, ..., size − 1` in creation order; a new standard entry always carries
konto_seq 0, and a new correction carries one plus the largest konto_seq of
its group.  (After a `delete_partner`, belegnummer reuse can give a group two
konto_seq-0 originals — see the counterexample below.) -/
theorem c6_konto_seq_gapless (s : Store) (hr : ReachNoDelete s) :
    (∀ pid beleg, seqMap s pid beleg = List.range (seqMap s pid beleg).length) ∧
    (∀ (pid : Nat) (r t m k : String) (d : Date) (now : Now) (s' : Store),
      new_entry s pid r t m k d now = .ok s' →
      ∃ e, s'.entries = s.entries ++ [e] ∧ e.konto_seq = 0) ∧
    (∀ (pid : Nat) (b t m k : String) (d : Date) (now : Now) (s' : Store),
      correction_entry s pid b t m k d now = .ok s' →
      ∃ e, s'.entries = s.entries ++ [e] ∧
        e.konto_seq = maxSeqOf (belegGroup s pid b) + 1) := by
  have hinv := reach_inv s hr
  refine ⟨hinv.groups, ?_, ?_⟩
  · intro pid r t m k d now s' h
    obtain ⟨p, a, tl, q, rdb, -, -, -, -, -, -, rfl⟩ :=
      new_entry_ok_inv s pid r t m k d now s' h
    exact ⟨_, rfl, rfl⟩
  · intro pid b t m k d now s' h
    obtain ⟨p, a, tl, o, q, hp, ha, -, -, ho, -, -, rfl⟩ :=
      correction_ok_inv s pid b t m k d now s' h
    refine ⟨_, rfl, ?_⟩
    show nextSeq s pid b = maxSeqOf (belegGroup s pid b) + 1
    obtain ⟨hocoll, hobeleg, -⟩ := findOriginal_mem s pid b o ho
    have hogrp : o ∈ belegGroup s pid b :=
      List.mem_filter.mpr ⟨hocoll, by simp [hobeleg]⟩
    have hlen1 : 1 ≤ (seqMap s pid b).length := by
      unfold seqMap
      rw [List.length_map]
      have := List.length_pos.mpr (List.ne_nil_of_mem hogrp)
      omega
    have hrange := hinv.groups pid b
    have hnn := nextSeq_of_range s pid b (seqMap s pid b).length hlen1 hrange
    rw [hnn]
    unfold maxSeqOf
    have hms : (belegGroup s pid b).map (fun e => e.konto_seq) = seqMap s pid b := rfl
    rw [hms]
    have hfold : (seqMap s pid b).foldr max 0 = (seqMap s pid b).length - 1 := by
      conv_lhs => rw [hrange]
      rw [foldr_max_range_aux]
      omega
    rw [hfold]
    omega

def getOkS (x : Except Err Store) : Store :=
  match x with
  | .ok s => s
  | .error _ => Store.empty

/-- A reachable store: one partner, one inbound entry, one correction. -/
def reachS1 : Store := getOkS (new_partner Store.empty "A")

def reachS2 : Store :=
  getOkS (new_entry reachS1 1 "EIN" "EUP" "5" "hi" ⟨2024, 1, 10⟩ ⟨⟨2024, 1, 10⟩, 60⟩)

def reachS3 : Store :=
  getOkS (correction_entry reachS2 1 "2024011001" "EUP" "2" "fix" ⟨2024, 1, 11⟩
    ⟨⟨2024, 1, 11⟩, 60⟩)

theorem c6_konto_seq_gapless_witness :
    seqMap reachS3 1 "2024011001" = List.range (seqMap reachS3 1 "2024011001").length :=
  (c6_konto_seq_gapless reachS3
    (ReachNoDelete.corr reachS2 1 "2024011001" "EUP" "2" "fix" ⟨2024, 1, 11⟩
      ⟨⟨2024, 1, 11⟩, 60⟩ reachS3
      (ReachNoDelete.entry reachS1 1 "EIN" "EUP" "5" "hi" ⟨2024, 1, 10⟩ ⟨⟨2024, 1, 10⟩, 60⟩
        reachS2
        (ReachNoDelete.partner Store.empty "A" reachS1 ReachNoDelete.init (by rfl))
        (by refine ⟨?_, ?_, ?_⟩ <;> decide) (by rfl))
      (by rfl))).1 1 "2024011001"

/-- Same-day trace that refutes the unrestricted claim: partners A and B book
on 2024-03-01 (belegnummern "…01" and "…02"), partner A is deleted, and B's
next booking that day reuses "…02". -/
def delS1 : Store := getOkS (new_partner Store.empty "A")

def delS2 : Store := getOkS (new_partner delS1 "B")

def delS3 : Store :=
  getOkS (new_entry delS2 1 "EIN" "EUP" "5" "x" ⟨2024, 3, 1⟩ ⟨⟨2024, 3, 1⟩, 100⟩)

def delS4 : Store :=
  getOkS (new_entry delS3 2 "EIN" "EUP" "7" "y" ⟨2024, 3, 1⟩ ⟨⟨2024, 3, 1⟩, 200⟩)

def delS5 : Store := getOkS (delete_partner delS4 1)

def delS6 : Store :=
  getOkS (new_entry delS5 2 "EIN" "EUP" "9" "z" ⟨2024, 3, 1⟩ ⟨⟨2024, 3, 1⟩, 300⟩)

/-- C6 counterexample: through the application's own write paths — two
same-day bookings for partners A and B, then `delete_partner` on A, then
another same-day booking for B — partner B's belegnummer group "2024030102"
holds two original entries created by `new_entry` with konto_seq 0 each:
deleting A shrank the global prefix count, so B's belegnummer was reused,
and the group's konto_seq list [0, 0] is not gapless `0, 1, 2, ...`. -/
theorem c6_counterexample :
    Reach delS6 ∧
    seqMap delS6 2 "2024030102" = [0, 0] ∧
    seqMap delS6 2 "2024030102" ≠ List.range (seqMap delS6 2 "2024030102").length :=
  ⟨Reach.entry delS5 2 "EIN" "EUP" "9" "z" ⟨2024, 3, 1⟩ ⟨⟨2024, 3, 1⟩, 300⟩ delS6
    (Reach.delete delS4 1 delS5
      (Reach.entry delS3 2 "EIN" "EUP" "7" "y" ⟨2024, 3, 1⟩ ⟨⟨2024, 3, 1⟩, 200⟩ delS4
        (Reach.entry delS2 1 "EIN" "EUP" "5" "x" ⟨2024, 3, 1⟩ ⟨⟨2024, 3, 1⟩, 100⟩ delS3
          (Reach.partner delS1 "B" delS2
            (Reach.partner Store.empty "A" delS1 Reach.init (by rfl))
            (by rfl))
          (by refine ⟨?_, ?_, ?_⟩ <;> decide) (by rfl))
        (by refine ⟨?_, ?_, ?_⟩ <;> decide) (by rfl))
      (by rfl))
    (by refine ⟨?_, ?_, ?_⟩ <;> decide) (by rfl),
   by decide, by decide⟩
